/-
  Verification development for the envist configuration-file parser.

  The Python source is embedded shallowly: strings are `List Char`, Python
  exceptions become an explicit `Except` error channel, `dict`s become
  insertion-ordered association lists, and the `os.environ` side channel is
  threaded explicitly.  Each definition is translated from the corresponding
  function of the repository (file and function named in its doc comment).
-/
import Mathlib

namespace Envist

/-- Apostrophe character (written with an escape to keep source plain). -/
def sq : Char := '\u0027'

/-- Double-quote character. -/
def dq : Char := '"'

/-- Left curly brace. -/
def lbr : Char := '\u007B'

/-- Right curly brace. -/
def rbr : Char := '\u007D'

/-- Python `str.isspace` / `str.strip` whitespace set, restricted to ASCII
(the repository only deals in ASCII metacharacters). -/
def isPySpace (c : Char) : Bool :=
  c = ' ' || c = '\t' || c = '\n' || c = '\r' || c = '\u000B' || c = '\u000C'

/-- Python `str.lstrip()`. -/
def lstripL (l : List Char) : List Char := l.dropWhile isPySpace

/-- Python `str.rstrip()`. -/
def rstripL (l : List Char) : List Char := (l.reverse.dropWhile isPySpace).reverse

/-- Python `str.strip()`. -/
def stripL (l : List Char) : List Char := rstripL (lstripL l)

/-- Python `str.lower()`, modelled character-wise (ASCII). -/
def pyLower (l : List Char) : List Char := l.map Char.toLower

/-- Python `c in s` for a single character. -/
def hasChar (l : List Char) (c : Char) : Bool := l.any (fun d => d = c)

/-- Python `str.isalnum()` (ASCII): nonempty and all alphanumeric. -/
def pyIsAlnumS (l : List Char) : Bool := !l.isEmpty && l.all Char.isAlphanum

/-- Python substring test `pat in l`. -/
def hasSeg (pat : List Char) : List Char → Bool
  | [] => pat.isEmpty
  | c :: rest => pat.isPrefixOf (c :: rest) || hasSeg pat rest

/-- Index of the first occurrence of `c` (Python `str.find` when present). -/
def idxOfChar (l : List Char) (c : Char) : Nat := (l.takeWhile (fun d => d ≠ c)).length

/-- Decimal digits of a natural number (Python `str(n)` for an index). -/
def natChars (n : Nat) : List Char := (Nat.repr n).data

/-- Decimal rendering of an integer (Python `str(n)`). -/
def intChars (n : Int) : List Char := (Int.repr n).data

/-- Exception model.  The repository's exception classes
(`EnvistParseError`, `EnvistCastError`, `EnvistValueError`, `EnvistTypeError`,
`FileNotFoundError` from `src/envist/core/exceptions.py`, plus Python's
builtin `ValueError`/`TypeError`, which we fold into the same constructors)
are sibling classes; the payload is the message `str(e)`. -/
inductive PyErr
  | parseErr (m : List Char)
  | castErr (m : List Char)
  | valueErr (m : List Char)
  | typeErr (m : List Char)
  | fnf (m : List Char)
  deriving Repr, DecidableEq

/-- `str(e)`: the message carried by an exception. -/
def PyErr.msg : PyErr → List Char
  | .parseErr m => m
  | .castErr m => m
  | .valueErr m => m
  | .typeErr m => m
  | .fnf m => m

/-- The dynamically-typed Python values stored in the environment map.
Floats are represented by their accepted literal text: no claim depends on
IEEE numeric semantics, which are not representable here.  `set` values keep
first-occurrence order (Python's hash order is unspecified). -/
inductive Value
  | str (s : List Char)
  | int (n : Int)
  | bool (b : Bool)
  | float (lit : List Char)
  | list (xs : List Value)
  | tuple (xs : List Value)
  | set (xs : List Value)
  | dict (ps : List (Value × Value))
  | none
  deriving Repr

/-- Parsed type-annotation tree, mirroring the dictionaries built by
`TypeCaster._parse_type_syntax` (`src/envist/utils/type_casters.py`):
`.simple n` is `{"type": n}`, `.coll k t` is `{"type": k, "inner_type": t}`
and `.dict k v` is `{"type": "dict", "key_type": k, "value_type": v}`. -/
inductive TypeNode
  | simple (name : List Char)
  | coll (kind : List Char) (inner : TypeNode)
  | dict (keyT valueT : TypeNode)
  deriving Repr, DecidableEq

/-- Structural equality on values, used where Python compares values
(dict-key and set deduplication).  Python's cross-type numeric equality
(`True == 1`) is not modelled; no claim exercises it.  The recursion is
fueled (list and dict tails are repacked into their constructors so one
structurally recursive function covers the nested lists); the wrapper
passes the value size, which the descent can never exhaust. -/
def beqVF : Nat → Value → Value → Bool
  | 0, _, _ => false
  | Nat.succ f, a, b =>
    match a, b with
    | .str x, .str y => x == y
    | .int x, .int y => x == y
    | .bool x, .bool y => x == y
    | .float x, .float y => x == y
    | .list [], .list [] => true
    | .list (x :: xs), .list (y :: ys) => beqVF f x y && beqVF f (.list xs) (.list ys)
    | .tuple [], .tuple [] => true
    | .tuple (x :: xs), .tuple (y :: ys) => beqVF f x y && beqVF f (.tuple xs) (.tuple ys)
    | .set [], .set [] => true
    | .set (x :: xs), .set (y :: ys) => beqVF f x y && beqVF f (.set xs) (.set ys)
    | .dict [], .dict [] => true
    | .dict ((k1, v1) :: r1), .dict ((k2, v2) :: r2) =>
      beqVF f k1 k2 && beqVF f v1 v2 && beqVF f (.dict r1) (.dict r2)
    | .none, .none => true
    | _, _ => false

/-- Node count of a value, used only to supply fuel. -/
def vSize : Value → Nat
  | .str _ => 1
  | .int _ => 1
  | .bool _ => 1
  | .float _ => 1
  | .none => 1
  | .list xs => 1 + (xs.attach.map (fun x => vSize x.1)).sum
  | .tuple xs => 1 + (xs.attach.map (fun x => vSize x.1)).sum
  | .set xs => 1 + (xs.attach.map (fun x => vSize x.1)).sum
  | .dict ps => 1 + (ps.attach.map (fun kv => vSize kv.1.1 + vSize kv.1.2)).sum
decreasing_by
  all_goals simp_wf
  all_goals try
    (calc sizeOf x.1 < sizeOf xs := List.sizeOf_lt_of_mem x.2
      _ < 1 + sizeOf xs := by omega)
  all_goals
    (have h1 : sizeOf kv.1 ≤ sizeOf ps := le_of_lt (List.sizeOf_lt_of_mem kv.2)
     cases hkv : kv.1 with
     | mk a b =>
       rw [hkv] at h1
       simp only [Prod.mk.sizeOf_spec] at h1
       simp only [hkv]
       omega)

/-- `beqVF` at its natural fuel. -/
def beqV (a b : Value) : Bool := beqVF (vSize a + vSize b + 1) a b

/-- Comma-space join used by Python container `repr`s. -/
def joinComma : List (List Char) → List Char
  | [] => []
  | [x] => x
  | x :: rest => x ++ ',' :: ' ' :: joinComma rest

/-- Python `repr(value)` for the value shapes the parser produces, fueled
by the value size (the recursion descends the structure).  String escaping
and float formatting are not modelled beyond quoting; only `str` values
(rendered by `pyStr` without quotes) are inspected by any claim. -/
def pyReprF : Nat → Value → List Char
  | 0, _ => []
  | Nat.succ f, v =>
    match v with
    | .str s => if hasChar s sq && !hasChar s dq then dq :: s ++ [dq] else sq :: s ++ [sq]
    | .int n => intChars n
    | .bool b => if b then "True".data else "False".data
    | .float lit => lit
    | .none => "None".data
    | .list xs => '[' :: joinComma (xs.map (pyReprF f)) ++ [']']
    | .tuple [x] => '(' :: pyReprF f x ++ [',', ')']
    | .tuple xs => '(' :: joinComma (xs.map (pyReprF f)) ++ [')']
    | .set [] => "set()".data
    | .set xs => lbr :: joinComma (xs.map (pyReprF f)) ++ [rbr]
    | .dict ps =>
      lbr :: joinComma (ps.map (fun kv => pyReprF f kv.1 ++ ':' :: ' ' :: pyReprF f kv.2)) ++ [rbr]

/-- `pyReprF` at its natural fuel. -/
def pyRepr (v : Value) : List Char := pyReprF (vSize v + 1) v

/-- Python `str(value)`. -/
def pyStr : Value → List Char
  | .str s => s
  | v => pyRepr v


/-! ### Line validator (`src/envist/validators/env_validator.py`) -/

/-- `EnvValidator._remove_quotes` / `TypeCaster._remove_quotes`: strip one
surrounding pair of matching quotes. -/
def removeQuotes (v : List Char) : List Char :=
  if v.length ≥ 2 &&
      ((v.head? = some dq && v.getLast? = some dq) ||
       (v.head? = some sq && v.getLast? = some sq)) then
    (v.drop 1).dropLast
  else v

/-- `EnvValidator.validate_key`: the regex `[A-Za-z_][A-Za-z0-9_]*`
anchored at both ends (`re.match` with a trailing `$`). -/
def validateKey (k : List Char) : Bool :=
  match k with
  | [] => false
  | c :: rest => (c.isAlpha || c = '_') && rest.all (fun d => d.isAlphanum || d = '_')

/-- Bracket-balance scan of `EnvValidator._validate_type_syntax`:
running count, `False` as soon as it dips below zero or ends nonzero. -/
def bracketScan : List Char → Int → Bool
  | [], d => d = 0
  | c :: rest, d =>
    if c = '<' then bracketScan rest (d + 1)
    else if c = '>' then
      if d - 1 < 0 then false else bracketScan rest (d - 1)
    else bracketScan rest d

/-- The regex `[a-zA-Z_][a-zA-Z0-9_]*<.+>` (anchored) used by
`_validate_type_syntax` on the whitespace-free annotation: a word, one `<`,
at least one character, and a final `>`. -/
def matchWordThenGroup (s : List Char) : Bool :=
  match s with
  | [] => false
  | c :: rest =>
    (c.isAlpha || c = '_') &&
    (let w := rest.takeWhile (fun d => d.isAlphanum || d = '_')
     match rest.drop w.length with
     | '<' :: rest3 => rest3.length ≥ 2 && rest3.getLast? = some '>'
     | _ => false)

/-- Top-level `<...>` group counting loop of `_validate_type_syntax`;
`Option.none` models the early `return False` on a second top-level `<`
while a group is open. -/
def topGroups : List Char → Int → Bool → Nat → Option Nat
  | [], _, _, g => some g
  | c :: rest, depth, inG, g =>
    if c = '<' then
      if depth = 0 then
        if inG then Option.none else topGroups rest (depth + 1) true (g + 1)
      else topGroups rest (depth + 1) inG g
    else if c = '>' then
      if depth - 1 = 0 then topGroups rest (depth - 1) false g
      else topGroups rest (depth - 1) inG g
    else topGroups rest depth inG g

/-- `EnvValidator._validate_type_syntax`. -/
def validateTypeSyn (t : List Char) : Bool :=
  if t.isEmpty then false
  else if !bracketScan t 0 then false
  else if hasSeg ['<', '>'] t || t.head? = some '<' then false
  else
    let clean := t.filter (fun c => !isPySpace c)
    if !hasChar clean '<' then true
    else if !matchWordThenGroup clean then false
    else match topGroups clean 0 false 0 with
      | some g => g = 1
      | Option.none => false

/-- Character class `[^<>]` of the type-annotation regex. -/
def notAngle (c : Char) : Bool := c ≠ '<' && c ≠ '>'

/-- Scanner for the group-and-value part of the regex
`([^<>]+(?:<[^<>]*>[^<>]*)*)>=(.*)` of `parse_line_with_cast`, applied
after the key and its opening `<`.  The regex admits exactly the strings of
depth ≤ 1 with a non-angle first character, terminated by `>=`; on other
inputs every backtracking alternative fails, so a single deterministic
depth-tracking pass is an exact model.  Returns `(annotation, value)`. -/
def scanGroup : List Char → List Char → Nat → Option (List Char × List Char)
  | [], _, _ => Option.none
  | c :: rest, acc, depth =>
    if c = '<' then
      if depth = 0 then
        if acc.isEmpty then Option.none else scanGroup rest (acc ++ [c]) 1
      else Option.none
    else if c = '>' then
      if depth = 1 then scanGroup rest (acc ++ [c]) 0
      else
        match rest with
        | '=' :: v => if acc.isEmpty then Option.none else some (acc, v)
        | _ => Option.none
    else scanGroup rest (acc ++ [c]) depth

/-- The regex `^([^<>=]+)<([^<>]+(?:<[^<>]*>[^<>]*)*)>=(.*)$`
(`type_annotation_pattern`): the key group is forced to be the maximal
leading run free of `<`, `>`, `=`, which must be nonempty and followed by
`<`. -/
def matchTypeAnn (line : List Char) : Option (List Char × List Char × List Char) :=
  let k := line.takeWhile (fun c => c ≠ '<' && c ≠ '>' && c ≠ '=')
  if k.isEmpty then Option.none
  else
    match line.drop k.length with
    | '<' :: rest =>
      match scanGroup rest [] 0 with
      | some (g, v) => some (k, g, v)
      | Option.none => Option.none
    | _ => Option.none

/-- The regex `^([^:=]+):([^:=]+)=(.*)$` (`colon_annotation_pattern`):
both groups are maximal runs free of `:` and `=`, each nonempty, with the
stated separators. -/
def matchColon (line : List Char) : Option (List Char × List Char × List Char) :=
  let k := line.takeWhile (fun c => c ≠ ':' && c ≠ '=')
  if k.isEmpty then Option.none
  else
    match line.drop k.length with
    | ':' :: rest =>
      let t := rest.takeWhile (fun c => c ≠ ':' && c ≠ '=')
      if t.isEmpty then Option.none
      else
        match rest.drop t.length with
        | '=' :: v => some (k, t, v)
        | _ => Option.none
    | _ => Option.none

/-- Result triple of `parse_line_with_cast`: key, value, optional cast. -/
abbrev Parsed : Type := List Char × List Char × Option (List Char)

/-- Branch of `parse_line_with_cast` for lines without `=`
(source lines 40-54). -/
def parseNoEq (line : List Char) : Except PyErr Parsed :=
  let key := stripL line
  if key.isEmpty then .error (.parseErr ("Key cannot be empty".data))
  else if hasChar key ' ' ||
      !pyIsAlnumS (key.filter (fun c => c ≠ '_' && c ≠ '-')) then
    .error (.parseErr ("Invalid line format: ".data ++ [sq] ++ stripL line ++ [sq] ++
      " (missing ".data ++ [sq, '='] ++ [sq] ++ " assignment)".data))
  else .ok (key, [], Option.none)

/-- Branch of `parse_line_with_cast` taken when `type_annotation_pattern`
matched (source lines 66-91). -/
def parseAngleBranch (k t v : List Char) (acceptEmpty : Bool) : Except PyErr Parsed :=
  let key := stripL k
  let castT := stripL t
  let value := if pyLower castT = "str".data then v else stripL v
  if key.isEmpty then .error (.parseErr ("Key cannot be empty".data))
  else if !validateTypeSyn castT then
    .error (.parseErr ("Invalid type syntax: ".data ++ castT))
  else
    let value := removeQuotes value
    if !acceptEmpty && value.isEmpty then .error (.parseErr ("Empty value".data))
    else .ok (key, value, some castT)

/-- Branch of `parse_line_with_cast` taken when `colon_annotation_pattern`
matched (source lines 92-117). -/
def parseColonBranch (k t v : List Char) (acceptEmpty : Bool) : Except PyErr Parsed :=
  let key := stripL k
  let castT := stripL t
  let value := if pyLower castT = "str".data then v else stripL v
  if key.isEmpty then .error (.parseErr ("Key cannot be empty".data))
  else if castT.isEmpty || !pyIsAlnumS (castT.filter (fun c => c ≠ '_')) then
    .error (.parseErr ("Invalid type syntax: ".data ++ castT))
  else
    let value := removeQuotes value
    if !acceptEmpty && value.isEmpty then .error (.parseErr ("Empty value".data))
    else .ok (key, value, some castT)

/-- Matching-`>` search of the fallback branch (source lines 134-144):
depth counting from the first `<`; returns the index of the closing `>`. -/
def findClose : List Char → Nat → Int → Option Nat
  | [], _, _ => Option.none
  | c :: rest, i, depth =>
    if c = '<' then findClose rest (i + 1) (depth + 1)
    else if c = '>' then
      if depth - 1 = 0 then some i else findClose rest (i + 1) (depth - 1)
    else findClose rest (i + 1) depth

/-- Simple `KEY=value` branch (source lines 187-210): the lazy regex
`(.+?)\s*=\s*(.*)` with both groups then stripped reduces to splitting at
the first `=` and stripping both sides (the line was `lstrip`ped and cannot
start with `=` here). -/
def parseSimple (line : List Char) (acceptEmpty : Bool) : Except PyErr Parsed :=
  let key := stripL (line.takeWhile (fun c => c ≠ '='))
  let value := stripL (line.drop (idxOfChar line '=' + 1))
  if key.isEmpty then .error (.parseErr ("Key cannot be empty".data))
  else
    let value := removeQuotes value
    if !acceptEmpty && value.isEmpty then .error (.parseErr ("Empty value".data))
    else .ok (key, value, Option.none)

/-- Fallback deep-bracket branch (source lines 119-185), falling through to
`parseSimple` when its guards do not hold. -/
def parseFallback (line : List Char) (acceptEmpty : Bool) : Except PyErr Parsed :=
  if hasChar line '<' && hasChar line '>' && hasChar line '=' then
    let eqPos := idxOfChar line '='
    let brPos := idxOfChar line '<'
    if brPos > 0 && brPos < eqPos then
      let key := stripL (line.take brPos)
      if key.isEmpty then .error (.parseErr ("Key cannot be empty".data))
      else
        match findClose (line.drop brPos) brPos 0 with
        | some closePos =>
          let castT := stripL ((line.drop (brPos + 1)).take (closePos - brPos - 1))
          let remainder := stripL (line.drop (closePos + 1))
          if hasChar (remainder.takeWhile (fun c => c ≠ '=')) '>' then
            .error (.parseErr ("Invalid type syntax: extra closing brackets in ".data ++ line))
          else
            match remainder with
            | '=' :: raw =>
              let value := if pyLower castT = "str".data then raw else stripL raw
              let value := removeQuotes value
              if !acceptEmpty && value.isEmpty then .error (.parseErr ("Empty value".data))
              else if !validateTypeSyn castT then
                .error (.parseErr ("Invalid type syntax: ".data ++ castT))
              else .ok (key, value, some castT)
            | _ => .error (.parseErr ("Invalid type annotation format: ".data ++ line))
        | Option.none =>
          .error (.parseErr ("Invalid type syntax: unmatched brackets in ".data ++ line))
    else parseSimple line acceptEmpty
  else parseSimple line acceptEmpty

/-- `EnvValidator.parse_line_with_cast`. -/
def parseLineWithCast (line0 : List Char) (acceptEmpty : Bool) : Except PyErr Parsed :=
  let line := lstripL line0
  if line.isEmpty || (stripL line).isEmpty then
    .error (.parseErr ("Empty or whitespace-only line".data))
  else if (stripL line).head? = some '=' then
    .error (.parseErr ("Line cannot start with ".data ++ [sq, '='] ++ [sq] ++
      " (missing key)".data))
  else if !hasChar line '=' then parseNoEq line
  else
    match matchTypeAnn line with
    | some (k, t, v) => parseAngleBranch k t v acceptEmpty
    | Option.none =>
      match matchColon line with
      | some (k, t, v) => parseColonBranch k t v acceptEmpty
      | Option.none => parseFallback line acceptEmpty

/-! ### Line filter (`src/envist/utils/file_handler.py`) -/

/-- Comment search of `FileHandler.filter_lines`: index of the first `#`
outside quotes that starts the stripped line or follows whitespace.
Arguments: stripped-line-starts-with-hash flag, remaining characters,
current index, in-quotes flag, opening quote, previous character. -/
def findCommentIdx (sh : Bool) : List Char → Nat → Bool → Option Char → Option Char → Option Nat
  | [], _, _, _, _ => Option.none
  | c :: rest, i, inQ, qc, prev =>
    if c = sq || c = dq then
      if !inQ then findCommentIdx sh rest (i + 1) true (some c) (some c)
      else if qc = some c then findCommentIdx sh rest (i + 1) false qc (some c)
      else findCommentIdx sh rest (i + 1) inQ qc (some c)
    else if c = '#' && !inQ then
      if sh || (i > 0 && (match prev with | some p => isPySpace p | Option.none => false)) then
        some i
      else findCommentIdx sh rest (i + 1) inQ qc (some c)
    else findCommentIdx sh rest (i + 1) inQ qc (some c)

/-- `FileHandler.filter_lines` with the default
`preserve_whitespace=False`, as called by `Envist._load_env`. -/
def filterLines : List (List Char) → List (List Char)
  | [] => []
  | line :: rest =>
    let stripped := stripL line
    if stripped.isEmpty then filterLines rest
    else
      let sh := stripped.head? = some '#'
      let line2 :=
        match findCommentIdx sh line 0 false Option.none Option.none with
        | some i => line.take i
        | Option.none => line
      let line3 := stripL line2
      if line3.isEmpty then filterLines rest else line3 :: filterLines rest


/-! ### Type caster (`src/envist/utils/type_casters.py`) -/

/-- First-occurrence deduplication by `beqV` (Python `set(...)` built from a
list; Python set iteration order is unspecified, first-occurrence order is
our canonical choice). -/
def dedupV : List Value → List Value
  | [] => []
  | x :: rest => x :: dedupV (rest.filter (fun y => !beqV x y))
termination_by l => l.length
decreasing_by
  simp only [List.length_cons]
  exact Nat.lt_succ_of_le (List.length_filter_le _ _)

/-- Association lookup (first matching key), Python `d.get(k)`. -/
def lookupA {α : Type} : List (List Char × α) → List Char → Option α
  | [], _ => Option.none
  | (k1, v) :: rest, k => if k1 == k then some v else lookupA rest k

/-- Association update preserving insertion order, Python `d[k] = v`. -/
def updateA {α : Type} : List (List Char × α) → List Char → α → List (List Char × α)
  | [], k, v => [(k, v)]
  | (k1, v1) :: rest, k, v =>
    if k1 == k then (k1, v) :: rest else (k1, v1) :: updateA rest k v

/-- Value-keyed association update (Python dict with cast keys). -/
def updateAV : List (Value × Value) → Value → Value → List (Value × Value)
  | [], k, v => [(k, v)]
  | (k1, v1) :: rest, k, v =>
    if beqV k1 k then (k1, v) :: rest else (k1, v1) :: updateAV rest k v

/-- Digit run possibly containing single underscores between digits, as
accepted inside Python `int()` / `float()` literals. -/
def digitsUS (l : List Char) : Bool :=
  !l.isEmpty && l.all (fun c => c.isDigit || c = '_') &&
  (l.head?.getD '_').isDigit && (l.getLast?.getD '_').isDigit &&
  !hasSeg ['_', '_'] l

/-- Numeric value of a digit run (underscores skipped). -/
def digitsVal (l : List Char) : Nat :=
  (l.filter Char.isDigit).foldl (fun acc c => acc * 10 + (c.toNat - 48)) 0

/-- Python `int(s)` on a string: optional surrounding whitespace, optional
sign, base-10 digits with underscore separators. -/
def parsePyIntS (s : List Char) : Option Int :=
  let t := stripL s
  match t with
  | '+' :: r => if digitsUS r then some (Int.ofNat (digitsVal r)) else Option.none
  | '-' :: r => if digitsUS r then some (-Int.ofNat (digitsVal r)) else Option.none
  | r => if digitsUS r then some (Int.ofNat (digitsVal r)) else Option.none

/-- Syntactic validity for Python `float(s)` (decimal with optional
fraction and exponent, or inf/infinity/nan, case-insensitive).  Numeric
(IEEE) semantics are out of scope; `Value.float` keeps the literal. -/
def pyFloatBody (b : List Char) : Bool :=
  let lb := pyLower b
  if lb = "inf".data || lb = "infinity".data || lb = "nan".data then true
  else
    let mantissa := b.takeWhile (fun c => c ≠ 'e' && c ≠ 'E')
    let expPart := b.drop mantissa.length
    let intp := mantissa.takeWhile (fun c => c ≠ '.')
    let rest := mantissa.drop intp.length
    let okMant :=
      match rest with
      | [] => digitsUS intp
      | '.' :: frac =>
        (intp.isEmpty || digitsUS intp) && (frac.isEmpty || digitsUS frac) &&
        !(intp.isEmpty && frac.isEmpty)
      | _ => false
    let okExp :=
      match expPart with
      | [] => true
      | _ :: ex =>
        match ex with
        | '+' :: d => digitsUS d
        | '-' :: d => digitsUS d
        | d => digitsUS d
    okMant && okExp

/-- Python `float(s)` on a string, reduced to syntactic acceptance. -/
def parsePyFloatS (s : List Char) : Option (List Char) :=
  let t := stripL s
  match t with
  | '+' :: r => if pyFloatBody r then some t else Option.none
  | '-' :: r => if pyFloatBody r then some t else Option.none
  | r => if pyFloatBody r then some t else Option.none

/-- Python truthiness `bool(value)`.  A float is falsy exactly when its
mantissa digits are all zero; nan/inf are truthy. -/
def pyTruthy : Value → Bool
  | .str s => !s.isEmpty
  | .int n => n ≠ 0
  | .bool b => b
  | .float lit =>
    let digs := lit.filter Char.isDigit
    !(hasChar (pyLower lit) 'n' = false && !digs.isEmpty && digs.all (fun c => c = '0'))
  | .list xs => !xs.isEmpty
  | .tuple xs => !xs.isEmpty
  | .set xs => !xs.isEmpty
  | .dict ps => !ps.isEmpty
  | .none => false

/-- Python `int(value)` over our value model (`int(float)` truncation is not
modelled: IEEE rounding is unrepresentable here and no load path or claim
produces it). -/
def castIntV : Value → Except PyErr Value
  | .int n => .ok (.int n)
  | .bool b => .ok (.int (if b then 1 else 0))
  | .str s =>
    match parsePyIntS s with
    | some n => .ok (.int n)
    | Option.none =>
      .error (.valueErr ("invalid literal for int() with base 10: ".data ++ pyRepr (.str s)))
  | .float _ => .error (.valueErr ("int() of float literal is not modelled".data))
  | _ => .error (.typeErr ("int() argument must be a string or a number".data))

/-- Python `float(value)` over our value model. -/
def castFloatV : Value → Except PyErr Value
  | .float lit => .ok (.float lit)
  | .int n => .ok (.float (intChars n ++ ".0".data))
  | .bool b => .ok (.float (if b then "1.0".data else "0.0".data))
  | .str s =>
    match parsePyFloatS s with
    | some lit => .ok (.float lit)
    | Option.none =>
      .error (.valueErr ("could not convert string to float: ".data ++ pyRepr (.str s)))
  | _ => .error (.typeErr ("float() argument must be a string or a number".data))

/-- JSON whitespace skip. -/
def jsonWs (l : List Char) : List Char :=
  l.dropWhile (fun c => c = ' ' || c = '\t' || c = '\n' || c = '\r')

/-- Hex digit value. -/
def hexVal (c : Char) : Option Nat :=
  if c.isDigit then some (c.toNat - 48)
  else if 'a' ≤ c && c ≤ 'f' then some (c.toNat - 87)
  else if 'A' ≤ c && c ≤ 'F' then some (c.toNat - 55)
  else Option.none

/-- JSON string body after the opening quote: characters up to the closing
quote, decoding the standard escapes (surrogate pairing of `\u` escapes is
not modelled).  Unescaped control characters are rejected, as in strict
`json.loads`. -/
def jsonStringBody : List Char → List Char → Option (List Char × List Char)
  | [], _ => Option.none
  | c :: rest, acc =>
    if c = dq then some (acc, rest)
    else if c = '\\' then
      match rest with
      | [] => Option.none
      | e :: r2 =>
        if e = dq then jsonStringBody r2 (acc ++ [dq])
        else if e = '\\' then jsonStringBody r2 (acc ++ ['\\'])
        else if e = '/' then jsonStringBody r2 (acc ++ ['/'])
        else if e = 'b' then jsonStringBody r2 (acc ++ ['\u0008'])
        else if e = 'f' then jsonStringBody r2 (acc ++ ['\u000C'])
        else if e = 'n' then jsonStringBody r2 (acc ++ ['\n'])
        else if e = 'r' then jsonStringBody r2 (acc ++ ['\r'])
        else if e = 't' then jsonStringBody r2 (acc ++ ['\t'])
        else if e = 'u' then
          match r2 with
          | h1 :: h2 :: h3 :: h4 :: r3 =>
            match hexVal h1, hexVal h2, hexVal h3, hexVal h4 with
            | some a, some b, some g, some d =>
              jsonStringBody r3 (acc ++ [Char.ofNat (((a * 16 + b) * 16 + g) * 16 + d)])
            | _, _, _, _ => Option.none
          | _ => Option.none
        else Option.none
    else if c.toNat < 32 then Option.none
    else jsonStringBody rest (acc ++ [c])

/-- JSON number: the scanner pattern `-?(0|[1-9]D*)(.D+)?([eE][-+]?D+)?`
with `D` a digit; integers become `Value.int`, anything with a fraction or
exponent keeps its literal as `Value.float`. -/
def jsonNumber (l : List Char) : Option (Value × List Char) :=
  let sign : Bool := match l with | '-' :: _ => true | _ => false
  let l1 := match l with | '-' :: r => r | r => r
  let intp :=
    match l1 with
    | '0' :: _ => ['0']
    | _ => l1.takeWhile Char.isDigit
  if intp.isEmpty then Option.none
  else
    let l2 := l1.drop intp.length
    let fracPair :=
      match l2 with
      | '.' :: r =>
        let d := r.takeWhile Char.isDigit
        if d.isEmpty then (([] : List Char), l2) else ('.' :: d, r.drop d.length)
      | _ => (([] : List Char), l2)
    let frac := fracPair.1
    let l3 := fracPair.2
    let exPair :=
      match l3 with
      | c :: r =>
        if c = 'e' || c = 'E' then
          match r with
          | s1 :: r2 =>
            if s1 = '+' || s1 = '-' then
              let d := r2.takeWhile Char.isDigit
              if d.isEmpty then (([] : List Char), l3) else (c :: s1 :: d, r2.drop d.length)
            else
              let d := r.takeWhile Char.isDigit
              if d.isEmpty then (([] : List Char), l3) else (c :: d, r.drop d.length)
          | [] => (([] : List Char), l3)
        else (([] : List Char), l3)
      | [] => (([] : List Char), l3)
    let ex := exPair.1
    let l4 := exPair.2
    let lit := (if sign then ['-'] else []) ++ intp ++ frac ++ ex
    if frac.isEmpty && ex.isEmpty then
      some (.int (if sign then -Int.ofNat (digitsVal intp) else Int.ofNat (digitsVal intp)), l4)
    else some (.float lit, l4)

/-- Parsing mode of the JSON reader: a single value, the remaining items of
an array, or the remaining members of an object. -/
inductive JMode
  | val
  | arrItems (acc : List Value)
  | objItems (acc : List (Value × Value))

/-- Strict `json.loads` grammar (with Python's accepted `NaN`/`Infinity`
extensions), as one fueled function over the parsing mode; returns the
value and the remaining input.  Every recursive call consumes at least one
input character, so fuel beyond the input length is never exhausted. -/
def jsonF : Nat → JMode → List Char → Option (Value × List Char)
  | 0, _, _ => Option.none
  | Nat.succ f, JMode.val, l =>
    (match jsonWs l with
    | [] => Option.none
    | c :: rest =>
      if c = lbr then
        match jsonWs rest with
        | d :: r1 =>
          if d = rbr then some (.dict [], r1)
          else if d = dq then
            match jsonStringBody r1 [] with
            | some (k, r2) =>
              match jsonWs r2 with
              | ':' :: r3 =>
                match jsonF f JMode.val r3 with
                | some (v, r4) => jsonF f (JMode.objItems (updateAV [] (.str k) v)) r4
                | Option.none => Option.none
              | _ => Option.none
            | Option.none => Option.none
          else Option.none
        | [] => Option.none
      else if c = '[' then
        match jsonWs rest with
        | ']' :: r1 => some (.list [], r1)
        | _ =>
          match jsonF f JMode.val rest with
          | some (v, r2) => jsonF f (JMode.arrItems [v]) r2
          | Option.none => Option.none
      else if c = dq then
        match jsonStringBody rest [] with
        | some (str, r) => some (.str str, r)
        | Option.none => Option.none
      else if c = 't' then
        if "rue".data.isPrefixOf rest then some (.bool true, rest.drop 3) else Option.none
      else if c = 'f' then
        if "alse".data.isPrefixOf rest then some (.bool false, rest.drop 4) else Option.none
      else if c = 'n' then
        if "ull".data.isPrefixOf rest then some (.none, rest.drop 3) else Option.none
      else if c = 'N' then
        if "aN".data.isPrefixOf rest then some (.float "nan".data, rest.drop 2) else Option.none
      else if c = 'I' then
        if "nfinity".data.isPrefixOf rest then some (.float "inf".data, rest.drop 7)
        else Option.none
      else if c = '-' && "Infinity".data.isPrefixOf rest then
        some (.float "-inf".data, rest.drop 8)
      else jsonNumber (c :: rest))
  | Nat.succ f, JMode.arrItems acc, l =>
    (match jsonWs l with
    | ',' :: r =>
      match jsonF f JMode.val r with
      | some (v, r2) => jsonF f (JMode.arrItems (acc ++ [v])) r2
      | Option.none => Option.none
    | ']' :: r => some (.list acc, r)
    | _ => Option.none)
  | Nat.succ f, JMode.objItems acc, l =>
    (match jsonWs l with
    | ',' :: r =>
      (match jsonWs r with
      | d :: r1 =>
        if d = dq then
          match jsonStringBody r1 [] with
          | some (k, r2) =>
            match jsonWs r2 with
            | ':' :: r3 =>
              match jsonF f JMode.val r3 with
              | some (v, r4) => jsonF f (JMode.objItems (updateAV acc (.str k) v)) r4
              | Option.none => Option.none
            | _ => Option.none
          | Option.none => Option.none
        else Option.none
      | [] => Option.none)
    | d :: r =>
      if d = rbr then some (.dict acc, r) else Option.none
    | [] => Option.none)


/-- `json.loads(s)`: a single JSON value followed only by whitespace.
Fuel is the input length; every nested parse consumes at least one
character, so the fuel never runs out on the entry value. -/
def jsonParse (s : List Char) : Option Value :=
  match jsonF (s.length + 2) JMode.val s with
  | some (v, rest) => if (jsonWs rest).isEmpty then some v else Option.none
  | Option.none => Option.none

/-- `TypeCaster._smart_split`: split on the delimiter at bracket/brace depth
zero outside quotes; fragments are stripped and empty ones dropped. -/
def smartSplit (text : List Char) (delim : Char) : List (List Char) :=
  go text [] 0 0 false Option.none []
where
  go : List Char → List Char → Int → Int → Bool → Option Char → List (List Char) →
      List (List Char)
  | [], cur, _, _, _, _, out =>
    if (stripL cur).isEmpty then out else out ++ [stripL cur]
  | c :: rest, cur, bk, br, inQ, qc, out =>
    if c = dq || c = sq then
      if !inQ then go rest (cur ++ [c]) bk br true (some c) out
      else if qc = some c then go rest (cur ++ [c]) bk br false qc out
      else go rest (cur ++ [c]) bk br inQ qc out
    else if inQ then go rest (cur ++ [c]) bk br inQ qc out
    else if c = '[' then go rest (cur ++ [c]) (bk + 1) br inQ qc out
    else if c = ']' then go rest (cur ++ [c]) (bk - 1) br inQ qc out
    else if c = lbr then go rest (cur ++ [c]) bk (br + 1) inQ qc out
    else if c = rbr then go rest (cur ++ [c]) bk (br - 1) inQ qc out
    else if c = delim && bk = 0 && br = 0 then
      if (stripL cur).isEmpty then go rest [] bk br inQ qc out
      else go rest [] bk br inQ qc (out ++ [stripL cur])
    else go rest (cur ++ [c]) bk br inQ qc out

/-- Plain `str.split(sep)` for a single-character separator. -/
def splitChar (l : List Char) (c : Char) : List (List Char) :=
  go l [] []
where
  go : List Char → List Char → List (List Char) → List (List Char)
  | [], cur, out => out ++ [cur]
  | d :: rest, cur, out =>
    if d = c then go rest [] (out ++ [cur]) else go rest (cur ++ [d]) out

/-- `TypeCaster._parse_nested_list`: decompose `[[1,2],[3,4]]` into lists of
stripped, comma-separated strings. -/
def parseNestedList (value0 : List Char) : List (List (List Char)) :=
  let v1 := stripL value0
  let v2 :=
    if ['['].isPrefixOf v1 && [']'].isSuffixOf v1 then (v1.drop 1).dropLast else v1
  go v2 0 [] []
where
  go : List Char → Int → List Char → List (List (List Char)) → List (List (List Char))
  | [], _, _, out => out
  | c :: rest, bc, cur, out =>
    if c = '[' then
      if bc + 1 = 1 then go rest (bc + 1) [] out
      else go rest (bc + 1) (cur ++ [c]) out
    else if c = ']' then
      if bc - 1 = 0 then
        let out1 :=
          if !(stripL cur).isEmpty then
            out ++ [((splitChar cur ',').map stripL).filter (fun i => !i.isEmpty)]
          else out
        go rest (bc - 1) [] out1
      else go rest (bc - 1) (cur ++ [c]) out
    else if bc > 0 then go rest bc (cur ++ [c]) out
    else go rest bc cur out

/-- `TypeCaster._parse_list_of_objects`: split top-level brace groups
outside quotes, `json.loads` each with fallback to the raw string. -/
def parseListOfObjects (value : List Char) : List Value :=
  go value [] 0 false Option.none []
where
  jsonOrStr (cur : List Char) : List Value :=
    if (stripL cur).isEmpty then []
    else
      match jsonParse (stripL cur) with
      | some v => [v]
      | Option.none => [.str (stripL cur)]
  go : List Char → List Char → Int → Bool → Option Char → List Value → List Value
  | [], cur, _, _, _, out => out ++ jsonOrStr cur
  | c :: rest, cur, bc, inQ, qc, out =>
    if c = dq || c = sq then
      if !inQ then go rest (cur ++ [c]) bc true (some c) out
      else if qc = some c then go rest (cur ++ [c]) bc false qc out
      else go rest (cur ++ [c]) bc inQ qc out
    else if !inQ then
      if c = lbr then go rest (cur ++ [c]) (bc + 1) inQ qc out
      else if c = rbr then
        if bc - 1 = 0 then go rest [] (bc - 1) inQ qc (out ++ jsonOrStr (cur ++ [c]))
        else go rest (cur ++ [c]) (bc - 1) inQ qc out
      else if c = ',' && bc = 0 then go rest cur bc inQ qc out
      else go rest (cur ++ [c]) bc inQ qc out
    else go rest (cur ++ [c]) bc inQ qc out

/-- Python `list(value)` for non-string, non-list values. -/
def pyListConv : Value → Except PyErr (List Value)
  | .tuple xs => .ok xs
  | .set xs => .ok xs
  | .dict ps => .ok (ps.map Prod.fst)
  | _ => .error (.typeErr ("object is not iterable".data))

/-- `TypeCaster._cast_to_smart_list`, fueled: the recursion of the
multiple-top-level-structures branch is on strictly shorter item strings,
so the wrapper's fuel (input length plus two) is never exhausted. -/
def castSmartListF : Nat → Value → Except PyErr (List Value)
  | 0, _ => .error (.typeErr ("list recursion fuel exhausted".data))
  | Nat.succ f, v =>
    match v with
    | .list xs => .ok xs
    | .str s0 =>
      let s := stripL s0
      (match jsonParse s with
       | some (.list xs) => .ok xs
       | _ =>
        if ['[', '['].isPrefixOf s && [']', ']'].isSuffixOf s then
          let items := smartSplit s ','
          if items.length > 1 then
            items.mapM (fun item0 =>
              let item := stripL item0
              if ['[', '['].isPrefixOf item && [']', ']'].isSuffixOf item then
                Except.ok (Value.list ((parseNestedList item).map
                  (fun inner => Value.list (inner.map Value.str))))
              else if ['['].isPrefixOf item && [']'].isSuffixOf item then
                (castSmartListF f (.str item)).map Value.list
              else Except.ok (Value.str item))
          else .ok ((parseNestedList s).map (fun inner => Value.list (inner.map Value.str)))
        else if hasChar s lbr && hasChar s rbr then .ok (parseListOfObjects s)
        else
          let s1 :=
            if ['['].isPrefixOf s && [']'].isSuffixOf s then (s.drop 1).dropLast else s
          if (stripL s1).isEmpty then .ok []
          else .ok ((smartSplit s1 ',').map (fun i => Value.str (removeQuotes (stripL i)))))
    | w => pyListConv w


/-- `_cast_to_smart_list` at its natural fuel. -/
def castSmartList (v : Value) : Except PyErr (List Value) :=
  castSmartListF (match v with | .str s => s.length + 2 | _ => 2) v

/-- Strip a run of quote characters from both ends (Python `.strip` with
both quote characters). -/
def stripQuoteRun (l : List Char) : List Char :=
  ((l.dropWhile (fun c => c = sq || c = dq)).reverse.dropWhile
    (fun c => c = sq || c = dq)).reverse

/-- The `key=value` / `key:value` pair fold of
`TypeCaster._cast_to_smart_dict`. -/
def buildDictSteps : List (List Char) → List (Value × Value) →
    Except PyErr (List (Value × Value))
  | [], acc => .ok acc
  | pair :: rest, acc =>
    if hasChar pair '=' then do
      let k := stripQuoteRun (stripL (pair.takeWhile (fun c => c ≠ '=')))
      let vraw := stripL (pair.drop (idxOfChar pair '=' + 1))
      let v ←
        if ['['].isPrefixOf vraw && [']'].isSuffixOf vraw then
          (castSmartList (.str vraw)).map Value.list
        else Except.ok (Value.str (removeQuotes vraw))
      buildDictSteps rest (updateAV acc (.str k) v)
    else if hasChar pair ':' then
      let k := stripQuoteRun (stripL (pair.takeWhile (fun c => c ≠ ':')))
      let v := stripQuoteRun (stripL (pair.drop (idxOfChar pair ':' + 1)))
      buildDictSteps rest (updateAV acc (.str k) (.str v))
    else buildDictSteps rest acc

/-- `TypeCaster._cast_to_smart_dict`.  `dict(value)` conversion of
non-string non-dict values is represented by a `TypeError`; no load path or
claim reaches it. -/
def castSmartDict : Value → Except PyErr (List (Value × Value))
  | .dict ps => .ok ps
  | .str s0 =>
    let s := stripL s0
    (match jsonParse s with
     | some (.dict ps) => .ok ps
     | _ =>
       let s1 :=
         if [lbr].isPrefixOf s && [rbr].isSuffixOf s then (s.drop 1).dropLast else s
       if s1.isEmpty then .ok []
       else buildDictSteps (smartSplit s1 ',') [])
  | _ => .error (.typeErr ("cannot convert value to dict".data))

/-- First CSV record of `csv.reader(io.StringIO(value))` with the default
dialect: comma delimiter, double-quote quoting with doubled-quote escapes,
record ended by an unquoted newline.  `next(reader, [])` on empty input
gives `[]`. -/
def csvFirstRow (s : List Char) : List (List Char) :=
  if s.isEmpty then [] else go s [] [] false
where
  go : List Char → List Char → List (List Char) → Bool → List (List Char)
  | [], cur, out, _ => out ++ [cur]
  | c :: rest, cur, out, inQ =>
    if inQ then
      if c = dq then
        match rest with
        | d :: r2 =>
          if d = dq then go r2 (cur ++ [dq]) out true else go (d :: r2) cur out false
        | [] => out ++ [cur]
      else go rest (cur ++ [c]) out true
    else if c = dq && cur.isEmpty then go rest cur out true
    else if c = ',' then go rest [] (out ++ [cur]) false
    else if c = '\n' || c = '\r' then out ++ [cur]
    else go rest (cur ++ [c]) out false

/-- `TypeCaster._cast_to_csv`. -/
def castCsvV : Value → Except PyErr Value
  | .str s => .ok (.list ((csvFirstRow s).map Value.str))
  | w => (pyListConv w).map Value.list

/-- `TypeCaster._cast_to_json`.  The wrapped `JSONDecodeError` text is
abbreviated; only its presence matters to any claim. -/
def castJsonV : Value → Except PyErr Value
  | .str s =>
    match jsonParse s with
    | some v => .ok v
    | Option.none => .error (.castErr ("Invalid JSON format: invalid JSON value".data))
  | _ => .error (.typeErr ("the JSON object must be str".data))

/-- `TypeCaster._cast_simple_type`. -/
def castSimpleType (v : Value) (name : List Char) : Except PyErr Value :=
  if name = "int".data then castIntV v
  else if name = "float".data then castFloatV v
  else if name = "bool".data then
    match v with
    | .str s =>
      .ok (.bool (pyLower s == "true".data || pyLower s == "1".data ||
        pyLower s == "yes".data || pyLower s == "on".data))
    | w => .ok (.bool (pyTruthy w))
  else if name = "str".data then .ok (.str (pyStr v))
  else if name = "list".data || name = "array".data then
    (castSmartList v).map Value.list
  else if name = "dict".data then (castSmartDict v).map Value.dict
  else if name = "tuple".data then (castSmartList v).map Value.tuple
  else if name = "set".data then (castSmartList v).map (fun xs => Value.set (dedupV xs))
  else if name = "csv".data || name = "comma_separated".data then castCsvV v
  else if name = "json".data then castJsonV v
  else .error (.castErr ([dq] ++ name ++ [dq] ++ " is not a valid cast type".data))

/-- `TypeCaster._apply_type_casting`: recursion over the parsed type tree,
fueled by the tree depth (each recursive call descends one level, so the
wrapper's fuel is never exhausted).  Collection elements and dict items are
cast through `mapM`/`foldlM`, mirroring the Python comprehension and item
loop; a `coll` node whose kind passes the supported-nested check but is not
`list`/`set`/`tuple` falls off the Python `if` chain and yields `None`. -/
def applyCastF : Nat → Value → TypeNode → Except PyErr Value
  | 0, _, _ => .error (.castErr ("cast recursion fuel exhausted".data))
  | Nat.succ f, v, node =>
    match node with
    | .simple name => castSimpleType v name
    | .coll kind inner =>
      if !(kind = "list".data || kind = "set".data || kind = "tuple".data ||
          kind = "dict".data) then
        .error (.castErr ("Unsupported nested type: ".data ++ kind))
      else do
        let collection ← castSmartList v
        let casted ← collection.mapM (fun x => applyCastF f x inner)
        if kind = "list".data then .ok (.list casted)
        else if kind = "set".data then .ok (.set (dedupV casted))
        else if kind = "tuple".data then .ok (.tuple casted)
        else .ok Value.none
    | .dict kt vt => do
      let ps ← castSmartDict v
      let casted ← ps.foldlM (fun acc kvp => do
        let ck ← applyCastF f kvp.1 kt
        let cv ← applyCastF f kvp.2 vt
        pure (updateAV acc ck cv)) []
      .ok (.dict casted)

/-- Depth of a type tree, fuel for `applyCastF`. -/
def nodeDepth : TypeNode → Nat
  | .simple _ => 1
  | .coll _ inner => 1 + nodeDepth inner
  | .dict kt vt => 1 + max (nodeDepth kt) (nodeDepth vt)

/-- `_apply_type_casting` at its natural fuel. -/
def applyCasting (v : Value) (node : TypeNode) : Except PyErr Value :=
  applyCastF (nodeDepth node) v node


/-- `TypeCaster._split_type_args`: split on commas at bracket depth zero,
keeping stripped nonempty parts. -/
def splitTypeArgs (args : List Char) : List (List Char) :=
  if (stripL args).isEmpty then []
  else go args [] 0 []
where
  go : List Char → List Char → Int → List (List Char) → List (List Char)
  | [], cur, _, out => if (stripL cur).isEmpty then out else out ++ [stripL cur]
  | c :: rest, cur, bc, out =>
    if c = '<' then go rest (cur ++ [c]) (bc + 1) out
    else if c = '>' then go rest (cur ++ [c]) (bc - 1) out
    else if c = ',' && bc = 0 then
      if (stripL cur).isEmpty then go rest [] bc out
      else go rest [] bc (out ++ [stripL cur])
    else go rest (cur ++ [c]) bc out

/-- The regex `^(WORD+)<(.+)>$` of `_parse_type_syntax` (with `WORD` the
`\w` class, ASCII): a maximal leading word run, immediately a `<`, a
nonempty newline-free middle, and a final `>`. -/
def matchBaseGeneric (s : List Char) : Option (List Char × List Char) :=
  let w := s.takeWhile (fun c => c.isAlphanum || c = '_')
  if w.isEmpty then Option.none
  else
    match s.drop w.length with
    | '<' :: rest =>
      if rest.length ≥ 2 && rest.getLast? = some '>' &&
          !hasChar rest.dropLast '\n' then
        some (w, rest.dropLast)
      else Option.none
    | _ => Option.none

/-- `TypeCaster._parse_type_syntax`, fueled by annotation length (every
recursive call is on a strictly shorter string). -/
def parseTypeSynF : Nat → List Char → Except PyErr TypeNode
  | 0, _ => .error (.castErr ("type recursion fuel exhausted".data))
  | Nat.succ f, s0 =>
    let s := stripL s0
    if hasChar s '<' && hasChar s '>' then
      match matchBaseGeneric s with
      | Option.none => .error (.castErr ("Invalid type syntax: ".data ++ s))
      | some (base0, inner) =>
        let base := pyLower base0
        if base = "list".data || base = "set".data || base = "tuple".data then
          (parseTypeSynF f (stripL inner)).map (TypeNode.coll base)
        else if base = "dict".data then
          match splitTypeArgs inner with
          | [p1, p2] => do
            let kt ← parseTypeSynF f (stripL p1)
            let vt ← parseTypeSynF f (stripL p2)
            .ok (.dict kt vt)
          | _ =>
            .error (.castErr ("Dict type requires exactly 2 type arguments: ".data ++ s))
        else .error (.castErr ("Unsupported nested type: ".data ++ base))
    else if hasChar s '<' || hasChar s '>' then
      .error (.castErr ("Invalid type syntax: ".data ++ s))
    else
      let simple := pyLower s
      if simple = "int".data || simple = "float".data || simple = "bool".data ||
          simple = "str".data || simple = "list".data || simple = "array".data ||
          simple = "dict".data || simple = "tuple".data || simple = "set".data ||
          simple = "csv".data || simple = "comma_separated".data ||
          simple = "json".data then
        .ok (.simple simple)
      else .error (.castErr ("Unsupported type: ".data ++ simple))

/-- `_parse_type_syntax` at its natural fuel. -/
def parseTypeSyn (s : List Char) : Except PyErr TypeNode :=
  parseTypeSynF (s.length + 1) s

/-- `TypeCaster._cast_by_string`. -/
def castByString (v : Value) (t : List Char) : Except PyErr Value := do
  let node ← parseTypeSyn t
  applyCasting v node

/-- `TypeCaster.cast_value` for string cast types (callable casts are not
exercised by any claim): every failure is re-wrapped as an
`EnvistCastError` carrying value and type. -/
def castValue (v : Value) (t : List Char) : Except PyErr Value :=
  match castByString v t with
  | .ok r => .ok r
  | .error e =>
    .error (.castErr ("Unable to cast ".data ++ [dq] ++ pyStr v ++ [dq] ++
      " to ".data ++ [dq] ++ t ++ [dq] ++ ": ".data ++ e.msg))


/-! ### Variable resolver and loader (`src/envist/core/parser.py`) -/

/-- Name capture of the variable regex after a leading dollar-brace: the
lazy group takes the shortest nonempty newline-free run ending at a closing
brace. -/
def grabName (l : List Char) : Option (List Char × List Char) :=
  match l with
  | [] => Option.none
  | c :: r =>
    if c = '\n' then Option.none
    else
      let pre := r.takeWhile (fun d => d ≠ rbr && d ≠ '\n')
      match r.drop pre.length with
      | d :: rest2 => if d = rbr then some (c :: pre, rest2) else Option.none
      | [] => Option.none

/-- Prefix length bound for `takeWhile`. -/
theorem takeWhileLenLe (p : Char → Bool) (r : List Char) :
    (r.takeWhile p).length ≤ r.length := by
  induction r with
  | nil => simp
  | cons c rest ih =>
    by_cases h : p c
    · simp only [List.takeWhile_cons, h, if_true, List.length_cons]
      omega
    · simp [List.takeWhile_cons, h]

/-- Length bound used for the termination of the reference scanner. -/
theorem grabName_len {l n aft : List Char} (h : grabName l = some (n, aft)) :
    aft.length < l.length := by
  unfold grabName at h
  cases l with
  | nil => simp at h
  | cons c r =>
    by_cases hc : c = '\n'
    · simp [hc] at h
    · simp only [hc, if_false] at h
      rcases hd : r.drop (r.takeWhile (fun d => d ≠ rbr && d ≠ '\n')).length with _ | ⟨d, rest2⟩
      · rw [hd] at h; simp at h
      · rw [hd] at h
        by_cases hdq : d = rbr
        · simp only [hdq, if_true, Option.some.injEq, Prod.mk.injEq] at h
          obtain ⟨h1, h2⟩ := h
          have h3 := congrArg List.length hd
          simp only [List.length_drop, List.length_cons] at h3
          have h4 := takeWhileLenLe (fun d => d ≠ rbr && d ≠ '\n') r
          simp only [List.length_cons, ← h2]
          omega
        · simp [hdq] at h

/-- `re.findall` for the variable-reference pattern (dollar, brace, lazy
nonempty name, closing brace): left-to-right scan collecting captures,
fueled.  Every recursive call is on a strictly shorter list (see
`grabName_len`), so the wrapper's fuel is never exhausted. -/
def findallVRF : Nat → List Char → List (List Char)
  | 0, _ => []
  | Nat.succ f, l =>
    match l with
    | [] => []
    | c :: rest =>
      if c = '$' then
        match rest with
        | lb :: r =>
          if lb = lbr then
            match grabName r with
            | some (name, aft) => name :: findallVRF f aft
            | Option.none => findallVRF f (lb :: r)
          else findallVRF f (lb :: r)
        | [] => []
      else findallVRF f rest

/-- `findallVRF` at its natural fuel. -/
def findallVR (l : List Char) : List (List Char) := findallVRF (l.length + 1) l


/-- `Envist._is_variable`: the pattern search succeeds exactly when the
scan finds at least one reference. -/
def isVariable (v : List Char) : Bool := !(findallVR v).isEmpty

/-- Python `str.replace`: replace every non-overlapping occurrence, left to
right, fueled (each step shortens the remaining input, so the wrapper's
fuel is never exhausted; patterns here are nonempty). -/
def replaceAllF (pat repl : List Char) : Nat → List Char → List Char
  | 0, l => l
  | Nat.succ f, l =>
    match l with
    | [] => []
    | c :: rest =>
      if pat.isPrefixOf (c :: rest) && !pat.isEmpty then
        repl ++ replaceAllF pat repl f (List.drop (pat.length - 1) rest)
      else c :: replaceAllF pat repl f rest

/-- `replaceAllF` at its natural fuel. -/
def replaceAll (pat repl l : List Char) : List Char := replaceAllF pat repl (l.length + 1) l


/-- The literal text of a reference to `m`. -/
def refText (m : List Char) : List Char := '$' :: lbr :: m ++ [rbr]

/-- `resolve_recursively` inside `Envist._resolve_variable_with_env`, as a
single fueled function whose list argument is the pending `findall` matches
of the current call.  The shared mutable `resolved_vars` set is balanced
(every `add` is matched by a `discard` on the success path, and failure
aborts the load), so it is threaded as the `resolved` ancestor list.  The
original guards each nested call by `depth > 10`; that guard is applied
here before descending into a replacement, which is observationally the
same (the top-level call starts at depth 0).  Fuel merely bounds the total
number of steps: each step either consumes one pending match or descends
with `depth + 1 ≤ 11`, so the generous wrapper fuel is never exhausted and
the zero-fuel branch repeats the depth-ceiling error. -/
def resolveF (env : List (List Char × Value)) (os : List (List Char × List Char)) :
    Nat → Nat → List (List Char) → List (List Char) → List Char → Except PyErr (List Char)
  | 0, _, _, _, _ =>
    .error (.parseErr ("Circular reference detected or too deep nesting in variable resolution".data))
  | Nat.succ _, _, _, [], val => .ok val
  | Nat.succ f, depth, resolved, m :: ms, val =>
    if resolved.any (fun r => r == m) then
      .error (.parseErr ("Circular reference detected for variable: ".data ++ m))
    else
      match lookupA env m with
      | some ev =>
        let repl0 := match ev with | Value.none => [] | w => pyStr w
        (match
          (if isVariable repl0 then
            (if depth + 1 > 10 then
              .error (.parseErr ("Circular reference detected or too deep nesting in variable resolution".data))
            else resolveF env os f (depth + 1) (m :: resolved) (findallVR repl0) repl0)
           else .ok repl0) with
         | .ok repl => resolveF env os f depth resolved ms (replaceAll (refText m) repl val)
         | .error e => .error e)
      | Option.none =>
        let osv := (lookupA os m).getD []
        resolveF env os f depth resolved ms (replaceAll (refText m) osv val)

/-- Character count of the environment values, part of the resolver fuel
bound: every match list processed by `resolveF` comes from a `findall` over
either the original value or one of the environment values. -/
def envSumLen (env : List (List Char × Value)) : Nat :=
  env.foldl (fun a p => a + (pyStr p.2).length + 1) 0

/-- `Envist._resolve_variable_with_env` on string values.  At most 12
nesting levels are reachable under the depth guard and each level
processes at most one match list, each shorter than the longest
resolvable string, so the fuel below is never exhausted. -/
def resolveVarWithEnv (env : List (List Char × Value)) (os : List (List Char × List Char))
    (val : List Char) : Except PyErr (List Char) :=
  resolveF env os (12 * (val.length + envSumLen env + 2)) 0 [] (findallVR val) val


/-- The parser's mutable state: the typed map `self._env` and the mirrored
`os.environ`. -/
structure LoadState where
  env : List (List Char × Value)
  os : List (List Char × List Char)
  deriving Repr

/-- First pass of `Envist._load_env` (source lines 54-68): parse each line,
collect raw values and cast annotations; a parse failure is re-raised with
the 1-based line number. -/
def firstPass (ae : Bool) : List (List Char) → Nat → List (List Char × List Char) →
    List (List Char × List Char) →
    Except PyErr (List (List Char × List Char) × List (List Char × List Char))
  | [], _, raws, casts => .ok (raws, casts)
  | line :: rest, n, raws, casts =>
    match parseLineWithCast line ae with
    | .ok (k, v, c) =>
      let raws1 := updateA raws k v
      let casts1 :=
        match c with
        | some t => if !t.isEmpty then updateA casts k t else casts
        | Option.none => casts
      firstPass ae rest (n + 1) raws1 casts1
    | .error (.parseErr m) =>
      .error (.parseErr ("Line ".data ++ natChars n ++ ": ".data ++ m))
    | .error e => .error e

/-- One iteration of the second pass of `Envist._load_env` (source lines
71-91): resolve references, apply the cast when auto-cast is on, the
annotation is truthy and the value nonempty, store into the map and mirror
into the OS environment (`None` mirrors as the empty string). -/
def processOne (ae ac : Bool) (rawEnvV : List (List Char × Value))
    (casts : List (List Char × List Char)) (st : LoadState) (key value : List Char) :
    Except PyErr LoadState := do
  let v ← if isVariable value then resolveVarWithEnv rawEnvV st.os value else pure value
  if !v.isEmpty || ae then
    let v2 : Value ←
      match lookupA casts key with
      | some t =>
        if ac && !t.isEmpty && !v.isEmpty then castValue (.str v) t
        else pure (Value.str v)
      | Option.none => pure (Value.str v)
    pure { env := updateA st.env key v2,
           os := updateA st.os key (match v2 with | Value.none => [] | w => pyStr w) }
  else
    pure { env := updateA st.env key Value.none, os := updateA st.os key [] }

/-- Second pass of `Envist._load_env` (source lines 70-94): any failure is
wrapped as a parse error naming the offending key, and the state reached so
far is kept in the error (the Python object retains its partial `_env`). -/
def secondPass (ae ac : Bool) (rawEnvV : List (List Char × Value))
    (casts : List (List Char × List Char)) :
    List (List Char × List Char) → LoadState → Except (PyErr × LoadState) LoadState
  | [], st => .ok st
  | (key, value) :: rest, st =>
    match processOne ae ac rawEnvV casts st key value with
    | .ok st1 => secondPass ae ac rawEnvV casts rest st1
    | .error e =>
      .error (.parseErr ("Error processing variable ".data ++ [sq] ++ key ++ [sq] ++
        ": ".data ++ e.msg), st)

/-- Outer exception handler of `_load_env` (source lines 96-99): parse and
file-not-found errors pass through, anything else is re-wrapped. -/
def outerWrap : PyErr → PyErr
  | .parseErr m => .parseErr m
  | .fnf m => .fnf m
  | e => .parseErr ("Unexpected error loading env file: ".data ++ e.msg)

/-- `Envist._load_env` on already-filtered lines, starting from an empty
typed map and the ambient OS environment.  Errors carry the state at the
moment of the raise. -/
def loadEnv (lines : List (List Char)) (ae ac : Bool)
    (os0 : List (List Char × List Char)) : Except (PyErr × LoadState) LoadState :=
  match firstPass ae lines 1 [] [] with
  | .error e => .error (outerWrap e, { env := [], os := os0 })
  | .ok (raws, casts) =>
    match secondPass ae ac (raws.map (fun p => (p.1, Value.str p.2))) casts raws
        { env := [], os := os0 } with
    | .ok st => .ok st
    | .error (e, st) => .error (outerWrap e, st)

/-- Full load pipeline from raw file lines: `FileHandler.filter_lines`
followed by `_load_env`. -/
def loadFromRawLines (lines : List (List Char)) (ae ac : Bool)
    (os0 : List (List Char × List Char)) : Except (PyErr × LoadState) LoadState :=
  loadEnv (filterLines lines) ae ac os0

/-- `Envist.save` with default arguments (`pretty=False`,
`sort_keys=False`): one `key=str(value)` line per entry in map order. -/
def saveLines (env : List (List Char × Value)) : List (List Char) :=
  env.map (fun p => p.1 ++ '=' :: pyStr p.2)

/-- Truthiness of the `cast` argument and `None`-test of `Envist.get`. -/
def isNoneV : Value → Bool
  | Value.none => true
  | _ => false

/-- `Envist.get` with a string cast: the stored value (or the default when
the key is absent) is cast when a truthy cast is given and the value is not
`None`; failures are wrapped as `EnvistCastError`. -/
def envistGet (env : List (List Char × Value)) (key : List Char) (default : Value)
    (cast : Option (List Char)) : Except PyErr Value :=
  let value := (lookupA env key).getD default
  match cast with
  | some t =>
    if !t.isEmpty && !isNoneV value then
      match castValue value t with
      | .ok r => .ok r
      | .error e =>
        .error (.castErr ("Unable to cast ".data ++ [dq] ++ pyStr value ++ [dq] ++
          " to ".data ++ [dq] ++ t ++ [dq] ++ ": ".data ++ e.msg))
    else .ok value
  | Option.none => .ok value


/-! ### Claims -/

/-- Decide whether a caster result is an `EnvistCastError`. -/
def isCastErr {α : Type} (e : Except PyErr α) : Bool :=
  match e with
  | .error (.castErr _) => true
  | _ => false

/-- Message of the circular-reference error for chain `A` hitting `m`. -/
def circularViaA (m : List Char) : List Char :=
  "Error processing variable ".data ++ [sq] ++ "A".data ++ [sq] ++
    ": Circular reference detected for variable: ".data ++ m

/-- C1: the claim says a load of a type-annotated line whose resolved value
is empty raises a cast error under both `accept_empty` settings and never
silently stores an uncast or empty value.  The code disagrees (this is the
code-bug evaluation): under `accept_empty=True` the line
`EMPTY_WITH_TYPE:int=` loads fine and stores the uncast empty string; under
`accept_empty=False` it raises a plain parse error `Line 1: Empty value`;
and a typed value that only becomes empty through variable resolution is
silently stored as `None` even with `accept_empty=False`. -/
theorem c1_empty_typed_value_stored_uncast :
    loadFromRawLines ["EMPTY_WITH_TYPE:int=".data] true true [] =
      .ok { env := [("EMPTY_WITH_TYPE".data, Value.str [])],
            os := [("EMPTY_WITH_TYPE".data, [])] } ∧
    loadFromRawLines ["EMPTY_WITH_TYPE:int=".data] false true [] =
      .error (.parseErr "Line 1: Empty value".data, { env := [], os := [] }) ∧
    loadFromRawLines ["X<int>=${UNDEF}".data] false true [] =
      .ok { env := [("X".data, Value.none)], os := [("X".data, [])] } :=
  ⟨rfl, rfl, rfl⟩

/-- C2: the claim says `EMPTY_LIST<list<int>>=` loads as the empty list
`[]`.  The code disagrees (this is the code-bug evaluation): the cast is
skipped for empty values, so the empty string is stored; the third
conjunct shows the cast the code skipped would indeed have produced `[]`. -/
theorem c2_empty_collection_stored_as_string :
    loadFromRawLines ["EMPTY_LIST<list<int>>=".data] true true [] =
      .ok { env := [("EMPTY_LIST".data, Value.str [])],
            os := [("EMPTY_LIST".data, [])] } ∧
    loadFromRawLines ["EMPTY_LIST<list<int>>=".data] false true [] =
      .error (.parseErr "Line 1: Empty value".data, { env := [], os := [] }) ∧
    castValue (Value.str []) "list<int>".data = .ok (Value.list []) :=
  ⟨rfl, rfl, rfl⟩

/-- C3: under any ambient OS environment, loading the two-line file
`A=${B}` / `B=${A}` raises a circular-reference parse error with nothing
stored in the environment map at the moment of the raise, and the direct
cycle `A=${A}` is detected the same way. -/
theorem c3_circular_reference_detected (os0 : List (List Char × List Char)) :
    (loadFromRawLines ["A=${B}".data, "B=${A}".data] false true os0 =
      .error (.parseErr (circularViaA "B".data), { env := [], os := os0 })) ∧
    hasSeg "Circular reference".data (circularViaA "B".data) = true ∧
    (loadFromRawLines ["A=${A}".data] false true os0 =
      .error (.parseErr (circularViaA "A".data), { env := [], os := os0 })) ∧
    hasSeg "Circular reference".data (circularViaA "A".data) = true :=
  ⟨rfl, rfl, rfl, rfl⟩

/-- C4: parsing `dict<str, list<int>>` yields the tree with base type
`dict`, key type the simple `str`, and value type a `list` collection with
inner simple `int` — the Python dictionaries
`{"type": "dict", "key_type": {"type": "str"}, "value_type":
{"type": "list", "inner_type": {"type": "int"}}}` in our `TypeNode`
rendering. -/
theorem c4_dict_annotation_tree :
    parseTypeSyn "dict<str, list<int>>".data =
      .ok (TypeNode.dict (TypeNode.simple "str".data)
        (TypeNode.coll "list".data (TypeNode.simple "int".data))) := rfl

/-- C5: each of the annotations `list<int><str>`, `list<>` and `list<int`
is rejected by the type-syntax parser with an `EnvistCastError`; no type
tree is produced. -/
theorem c5_invalid_annotations_rejected :
    isCastErr (parseTypeSyn "list<int><str>".data) = true ∧
    isCastErr (parseTypeSyn "list<>".data) = true ∧
    isCastErr (parseTypeSyn "list<int".data) = true :=
  ⟨rfl, rfl, rfl⟩

/-- C6 counterexample: the line `MY-KEY=value` is accepted by the line
validator with key `MY-KEY`, which does not match the claimed key pattern
(`validate_key` rejects it); accepted keys are therefore not constrained to
the pattern. -/
theorem c6_counterexample_hyphen_key_accepted :
    parseLineWithCast "MY-KEY=value".data false =
      .ok ("MY-KEY".data, "value".data, Option.none) ∧
    validateKey "MY-KEY".data = false :=
  ⟨rfl, rfl⟩

/-- C7 counterexample: the circular-reference error raised while loading
`A=${A}` is annotated with the offending key, not with any line number —
the message does not even contain the word `Line`. -/
theorem c7_counterexample_no_line_number :
    loadFromRawLines ["A=${A}".data] false false [] =
      .error (.parseErr (circularViaA "A".data), { env := [], os := [] }) ∧
    hasSeg "Line".data (circularViaA "A".data) = false :=
  ⟨rfl, rfl⟩

/-- C8: boolean coercion of a string never fails, and produces `true`
exactly when the lower-cased string is one of `true`, `1`, `yes`, `on`. -/
theorem c8_bool_cast_truthy_set (s : List Char) :
    (∃ b : Bool, castSimpleType (Value.str s) "bool".data = .ok (Value.bool b)) ∧
    (castSimpleType (Value.str s) "bool".data = .ok (Value.bool true) ↔
      pyLower s ∈ ["true".data, "1".data, "yes".data, "on".data]) := by
  have hred : castSimpleType (Value.str s) "bool".data =
      .ok (Value.bool (pyLower s == "true".data || pyLower s == "1".data ||
        pyLower s == "yes".data || pyLower s == "on".data)) := rfl
  refine ⟨⟨_, hred⟩, ?_⟩
  rw [hred]
  constructor
  · intro h
    have hb := (Except.ok.inj h)
    have hb2 : (pyLower s == "true".data || pyLower s == "1".data ||
        pyLower s == "yes".data || pyLower s == "on".data) = true := by
      have := congrArg (fun w => match w with | Value.bool b => b | _ => false) hb
      simpa using this
    simp only [Bool.or_eq_true, beq_iff_eq] at hb2
    simp only [List.mem_cons, List.mem_singleton]
    tauto
  · intro h
    have hb2 : (pyLower s == "true".data || pyLower s == "1".data ||
        pyLower s == "yes".data || pyLower s == "on".data) = true := by
      simp only [List.mem_cons, List.mem_singleton] at h
      simp only [Bool.or_eq_true, beq_iff_eq]
      tauto
    rw [hb2]

/-- C9 counterexample: the value `a # b`, loaded from the quoted,
annotation-free line `KEY="a # b"`, does not survive a save/reload round
trip — the written line `KEY=a # b` is re-read with the unquoted ` # b`
stripped as a comment, so the key reloads as `a`. -/
theorem c9_counterexample_comment_breaks_round_trip :
    loadFromRawLines ["KEY=\"a # b\"".data] false true [] =
      .ok { env := [("KEY".data, Value.str "a # b".data)],
            os := [("KEY".data, "a # b".data)] } ∧
    loadFromRawLines (saveLines [("KEY".data, Value.str "a # b".data)]) false true [] =
      .ok { env := [("KEY".data, Value.str "a".data)],
            os := [("KEY".data, "a".data)] } ∧
    "a # b".data ≠ "a".data :=
  ⟨rfl, rfl, by decide⟩

/-- C10: when the key is absent, a non-`None` default together with a
nonempty cast type is itself cast — `get` returns the coerced default on
success and raises an `EnvistCastError` on failure, never the default
unchanged. -/
theorem c10_get_casts_default (env : List (List Char × Value)) (key : List Char)
    (d : Value) (t : List Char) (h1 : lookupA env key = Option.none)
    (h2 : isNoneV d = false) (h3 : t ≠ []) :
    (∀ v, castValue d t = .ok v → envistGet env key d (some t) = .ok v) ∧
    (∀ e, castValue d t = .error e →
      ∃ m, envistGet env key d (some t) = .error (.castErr m)) := by
  have hne : t.isEmpty = false := by
    cases t with
    | nil => exact absurd rfl h3
    | cons a r => rfl
  refine ⟨fun v hv => ?_, fun e he => ?_⟩
  · simp only [envistGet, h1, Option.getD_none, hne, h2, Bool.not_false, Bool.and_self,
      if_true, hv]
  · simp only [envistGet, h1, Option.getD_none, hne, h2, Bool.not_false, Bool.and_self,
      if_true, he]
    exact ⟨_, rfl⟩

/-- C10 witness: with the default `"5"` and cast `int` on an absent key,
`get` returns the integer 5. -/
theorem c10_witness :
    envistGet [] "K".data (Value.str "5".data) (some "int".data) = .ok (Value.int 5) :=
  (c10_get_casts_default [] "K".data (Value.str "5".data) "int".data rfl rfl
    (by decide)).1 (Value.int 5) rfl


/-- Keys returned by the no-equals branch are nonempty. -/
theorem parseNoEq_key_ne {line k v : List Char} {c : Option (List Char)}
    (h : parseNoEq line = .ok (k, v, c)) : k ≠ [] := by
  unfold parseNoEq at h
  dsimp only [] at h
  split_ifs at h <;>
    first
    | (simp only [Except.ok.injEq, Prod.mk.injEq] at h
       obtain ⟨hk, -⟩ := h
       subst hk
       simp_all)
    | simp at h

/-- Keys returned by the angle-annotation branch are nonempty. -/
theorem parseAngleBranch_key_ne {k0 t0 v0 k v : List Char} {ae : Bool}
    {c : Option (List Char)} (h : parseAngleBranch k0 t0 v0 ae = .ok (k, v, c)) :
    k ≠ [] := by
  unfold parseAngleBranch at h
  dsimp only [] at h
  split_ifs at h <;>
    first
    | (simp only [Except.ok.injEq, Prod.mk.injEq] at h
       obtain ⟨hk, -⟩ := h
       subst hk
       simp_all)
    | simp at h

/-- Keys returned by the colon-annotation branch are nonempty. -/
theorem parseColonBranch_key_ne {k0 t0 v0 k v : List Char} {ae : Bool}
    {c : Option (List Char)} (h : parseColonBranch k0 t0 v0 ae = .ok (k, v, c)) :
    k ≠ [] := by
  unfold parseColonBranch at h
  dsimp only [] at h
  split_ifs at h <;>
    first
    | (simp only [Except.ok.injEq, Prod.mk.injEq] at h
       obtain ⟨hk, -⟩ := h
       subst hk
       simp_all)
    | simp at h

/-- Keys returned by the simple branch are nonempty. -/
theorem parseSimple_key_ne {line k v : List Char} {ae : Bool}
    {c : Option (List Char)} (h : parseSimple line ae = .ok (k, v, c)) : k ≠ [] := by
  unfold parseSimple at h
  dsimp only [] at h
  split_ifs at h <;>
    first
    | (simp only [Except.ok.injEq, Prod.mk.injEq] at h
       obtain ⟨hk, -⟩ := h
       subst hk
       simp_all)
    | simp at h

/-- Keys returned by the fallback deep-bracket branch are nonempty. -/
theorem parseFallback_key_ne {line k v : List Char} {ae : Bool}
    {c : Option (List Char)} (h : parseFallback line ae = .ok (k, v, c)) : k ≠ [] := by
  unfold parseFallback at h
  dsimp only [] at h
  repeat' split at h
  all_goals first
    | (simp only [Except.ok.injEq, Prod.mk.injEq] at h
       obtain ⟨hk, -⟩ := h
       subst hk
       simp_all)
    | exact parseSimple_key_ne h
    | simp at h

/-- C6 (amended): every line accepted by `parse_line_with_cast` yields a
nonempty key, but nothing stronger — the claimed pattern
`[A-Za-z_][A-Za-z0-9_]*` is enforced only by `validate_key` (used by
`set()`), not by line parsing, as the counterexample shows. -/
theorem c6_accepted_key_nonempty (line : List Char) (ae : Bool) (k v : List Char)
    (c : Option (List Char)) (h : parseLineWithCast line ae = .ok (k, v, c)) :
    k ≠ [] := by
  unfold parseLineWithCast at h
  dsimp only [] at h
  repeat' split at h
  all_goals first
    | simp at h
    | exact parseNoEq_key_ne h
    | exact parseAngleBranch_key_ne h
    | exact parseColonBranch_key_ne h
    | exact parseFallback_key_ne h

/-- C6 witness: the accepted line `A=b` indeed yields the nonempty key
`A`. -/
theorem c6_witness_nonempty_key : ("A".data : List Char) ≠ [] :=
  c6_accepted_key_nonempty "A=b".data false "A".data "b".data Option.none rfl


/-- The no-equals branch only raises `EnvistParseError`. -/
theorem parseNoEq_err_parse {line : List Char} {e : PyErr}
    (h : parseNoEq line = .error e) : ∃ m, e = .parseErr m := by
  unfold parseNoEq at h
  dsimp only [] at h
  repeat' split at h
  all_goals first
    | (simp only [Except.error.injEq] at h
       exact ⟨_, h.symm⟩)
    | simp at h

/-- The angle-annotation branch only raises `EnvistParseError`. -/
theorem parseAngleBranch_err_parse {k0 t0 v0 : List Char} {ae : Bool} {e : PyErr}
    (h : parseAngleBranch k0 t0 v0 ae = .error e) : ∃ m, e = .parseErr m := by
  unfold parseAngleBranch at h
  dsimp only [] at h
  repeat' split at h
  all_goals first
    | (simp only [Except.error.injEq] at h
       exact ⟨_, h.symm⟩)
    | simp at h

/-- The colon-annotation branch only raises `EnvistParseError`. -/
theorem parseColonBranch_err_parse {k0 t0 v0 : List Char} {ae : Bool} {e : PyErr}
    (h : parseColonBranch k0 t0 v0 ae = .error e) : ∃ m, e = .parseErr m := by
  unfold parseColonBranch at h
  dsimp only [] at h
  repeat' split at h
  all_goals first
    | (simp only [Except.error.injEq] at h
       exact ⟨_, h.symm⟩)
    | simp at h

/-- The simple branch only raises `EnvistParseError`. -/
theorem parseSimple_err_parse {line : List Char} {ae : Bool} {e : PyErr}
    (h : parseSimple line ae = .error e) : ∃ m, e = .parseErr m := by
  unfold parseSimple at h
  dsimp only [] at h
  repeat' split at h
  all_goals first
    | (simp only [Except.error.injEq] at h
       exact ⟨_, h.symm⟩)
    | simp at h

/-- The fallback branch only raises `EnvistParseError`. -/
theorem parseFallback_err_parse {line : List Char} {ae : Bool} {e : PyErr}
    (h : parseFallback line ae = .error e) : ∃ m, e = .parseErr m := by
  unfold parseFallback at h
  dsimp only [] at h
  repeat' split at h
  all_goals first
    | (simp only [Except.error.injEq] at h
       exact ⟨_, h.symm⟩)
    | exact parseSimple_err_parse h
    | simp at h

/-- The line validator only ever raises `EnvistParseError`. -/
theorem parseLineWithCast_err_parse {line : List Char} {ae : Bool} {e : PyErr}
    (h : parseLineWithCast line ae = .error e) : ∃ m, e = .parseErr m := by
  unfold parseLineWithCast at h
  dsimp only [] at h
  repeat' split at h
  all_goals first
    | (simp only [Except.error.injEq] at h
       exact ⟨_, h.symm⟩)
    | exact parseNoEq_err_parse h
    | exact parseAngleBranch_err_parse h
    | exact parseColonBranch_err_parse h
    | exact parseFallback_err_parse h
    | simp at h

/-- Any first-pass failure carries a `Line n:` annotation with `n` at
least the starting line number. -/
theorem firstPass_err_line {ae : Bool} :
    ∀ (lines : List (List Char)) (n : Nat) (raws casts : List (List Char × List Char))
      (e : PyErr), firstPass ae lines n raws casts = .error e →
      ∃ m rest, n ≤ m ∧ e = .parseErr ("Line ".data ++ natChars m ++ ": ".data ++ rest) := by
  intro lines
  induction lines with
  | nil => intro n raws casts e h; simp [firstPass] at h
  | cons line rest ih =>
    intro n raws casts e h
    unfold firstPass at h
    cases hp : parseLineWithCast line ae with
    | ok t =>
      obtain ⟨k, v, c⟩ := t
      rw [hp] at h
      obtain ⟨m, r0, hm, he⟩ := ih (n + 1) _ _ e h
      exact ⟨m, r0, by omega, he⟩
    | error pe =>
      rw [hp] at h
      obtain ⟨m0, rfl⟩ := parseLineWithCast_err_parse hp
      simp only [Except.error.injEq] at h
      exact ⟨n, m0, le_refl n, h.symm⟩

/-- Any second-pass failure carries an `Error processing variable '<key>':`
annotation. -/
theorem secondPass_err_key {ae ac : Bool} {rawEnvV : List (List Char × Value)}
    {casts : List (List Char × List Char)} :
    ∀ (pending : List (List Char × List Char)) (st : LoadState) (e : PyErr)
      (st1 : LoadState), secondPass ae ac rawEnvV casts pending st = .error (e, st1) →
      ∃ key rest, e = .parseErr ("Error processing variable ".data ++ [sq] ++ key ++
        [sq] ++ ": ".data ++ rest) := by
  intro pending
  induction pending with
  | nil => intro st e st1 h; simp [secondPass] at h
  | cons p rest ih =>
    intro st e st1 h
    obtain ⟨key, value⟩ := p
    unfold secondPass at h
    cases hp : processOne ae ac rawEnvV casts st key value with
    | ok st2 =>
      rw [hp] at h
      exact ih st2 e st1 h
    | error e0 =>
      rw [hp] at h
      simp only [Except.error.injEq, Prod.mk.injEq] at h
      exact ⟨key, e0.msg, h.1.symm⟩

/-- C7 (amended): every error raised during bulk load is annotated either
with the offending 1-based line number (first-pass per-line parse errors)
or with the offending key (second-pass variable-resolution and casting
errors); circular-reference and too-deep failures belong to the second
group and carry the key, not the line number, as the counterexample
shows. -/
theorem c7_load_error_annotated (lines : List (List Char)) (ae ac : Bool)
    (os0 : List (List Char × List Char)) (e : PyErr) (st : LoadState)
    (h : loadEnv lines ae ac os0 = .error (e, st)) :
    (∃ n rest, 1 ≤ n ∧ e = .parseErr ("Line ".data ++ natChars n ++ ": ".data ++ rest)) ∨
    (∃ key rest, e = .parseErr ("Error processing variable ".data ++ [sq] ++ key ++
      [sq] ++ ": ".data ++ rest)) := by
  unfold loadEnv at h
  cases hf : firstPass ae lines 1 [] [] with
  | error e0 =>
    rw [hf] at h
    dsimp only [] at h
    obtain ⟨m, r0, hm, rfl⟩ := firstPass_err_line lines 1 [] [] e0 hf
    simp only [outerWrap, Except.error.injEq, Prod.mk.injEq] at h
    exact Or.inl ⟨m, r0, hm, h.1.symm⟩
  | ok pr =>
    obtain ⟨raws, casts⟩ := pr
    rw [hf] at h
    dsimp only [] at h
    cases hs : secondPass ae ac (raws.map (fun p => (p.1, Value.str p.2))) casts raws
        { env := [], os := os0 } with
    | ok st2 => rw [hs] at h; simp at h
    | error pe =>
      obtain ⟨e0, st0⟩ := pe
      rw [hs] at h
      dsimp only [] at h
      obtain ⟨key, r0, rfl⟩ := secondPass_err_key raws { env := [], os := os0 } e0 st0 hs
      simp only [outerWrap, Except.error.injEq, Prod.mk.injEq] at h
      exact Or.inr ⟨key, r0, h.1.symm⟩

/-- C7 witness: the failing load of the single line `A=` produces an error
annotated with its line number. -/
theorem c7_witness_annotated :
    (∃ n rest, 1 ≤ n ∧ (PyErr.parseErr "Line 1: Empty value".data) =
      .parseErr ("Line ".data ++ natChars n ++ ": ".data ++ rest)) ∨
    (∃ key rest, (PyErr.parseErr "Line 1: Empty value".data) =
      .parseErr ("Error processing variable ".data ++ [sq] ++ key ++ [sq] ++
        ": ".data ++ rest)) :=
  c7_load_error_annotated ["A=".data] false true []
    (PyErr.parseErr "Line 1: Empty value".data) { env := [], os := [] } rfl


/-- Identifier characters accepted by `validateKey` after the first. -/
def idChar (c : Char) : Bool := c.isAlphanum || c = '_'

/-- Characters of a value that survive the save/reload round trip: no
comment starter, quotes, reference dollar, angle brackets, or line
breaks. -/
def saveSafeChar (c : Char) : Bool :=
  !(c = '#' || c = dq || c = sq || c = '$' || c = '<' || c = '>' || c = '\n' || c = '\r')

/-- Values that survive the round trip: nonempty, safe characters only,
and no leading or trailing whitespace. -/
def saveSafeVal (v : List Char) : Bool :=
  !v.isEmpty && v.all saveSafeChar &&
  (match v.head? with | some c => !isPySpace c | Option.none => true) &&
  (match v.getLast? with | some c => !isPySpace c | Option.none => true)

/-- An alphanumeric character differs from any non-alphanumeric one. -/
theorem alnum_ne {c : Char} (h : c.isAlphanum = true) (d : Char)
    (hd : d.isAlphanum = false) : c ≠ d := by
  intro he
  subst he
  rw [h] at hd
  cases hd

/-- Identifier characters are not whitespace and none of the
metacharacters of the line grammar. -/
theorem idChar_props {c : Char} (h : idChar c = true) :
    isPySpace c = false ∧ c ≠ '=' ∧ c ≠ '<' ∧ c ≠ '>' ∧ c ≠ ':' ∧ c ≠ '#' ∧
    c ≠ '$' ∧ c ≠ sq ∧ c ≠ dq := by
  unfold idChar at h
  rcases Bool.or_eq_true_iff.mp h with ha | hu
  · refine ⟨?_, alnum_ne ha '=' (by decide), alnum_ne ha '<' (by decide),
      alnum_ne ha '>' (by decide), alnum_ne ha ':' (by decide),
      alnum_ne ha '#' (by decide), alnum_ne ha '$' (by decide),
      alnum_ne ha sq (by decide), alnum_ne ha dq (by decide)⟩
    cases hsp : isPySpace c
    · rfl
    · exfalso
      unfold isPySpace at hsp
      rcases Bool.or_eq_true_iff.mp hsp with h5 | h6
      · rcases Bool.or_eq_true_iff.mp h5 with h7 | h8
        · rcases Bool.or_eq_true_iff.mp h7 with h9 | h10
          · rcases Bool.or_eq_true_iff.mp h9 with h11 | h12
            · rcases Bool.or_eq_true_iff.mp h11 with h13 | h14
              · exact absurd ha (by rw [show c = ' ' from by simpa using h13]; decide)
              · exact absurd ha (by rw [show c = '\t' from by simpa using h14]; decide)
            · exact absurd ha (by rw [show c = '\n' from by simpa using h12]; decide)
          · exact absurd ha (by rw [show c = '\r' from by simpa using h10]; decide)
        · exact absurd ha (by rw [show c = '\u000B' from by simpa using h8]; decide)
      · exact absurd ha (by rw [show c = '\u000C' from by simpa using h6]; decide)
  · have hc : c = '_' := by simpa using hu
    subst hc
    decide

/-- The characters of a `validateKey`-valid key are identifier
characters. -/
theorem validateKey_all_idChar {k : List Char} (h : validateKey k = true) :
    k ≠ [] ∧ k.all idChar = true := by
  cases k with
  | nil => cases h
  | cons c rest =>
    unfold validateKey at h
    simp only [Bool.and_eq_true] at h
    refine ⟨by simp, ?_⟩
    simp only [List.all_cons, Bool.and_eq_true]
    constructor
    · unfold idChar
      rcases Bool.or_eq_true_iff.mp h.1 with ha | hu
      · simp [Char.isAlphanum, ha]
      · simp [hu]
    · have := h.2
      rw [List.all_eq_true] at this ⊢
      intro x hx
      have hx2 := this x hx
      unfold idChar
      simpa using hx2

/-- `takeWhile` over a run of satisfying characters stops exactly at the
first failing one. -/
theorem takeWhile_app_cons {p : Char → Bool} {k rest : List Char} {c : Char}
    (hk : k.all p = true) (hc : p c = false) :
    (k ++ c :: rest).takeWhile p = k := by
  induction k with
  | nil => simp [List.takeWhile_cons, hc]
  | cons a t ih =>
    simp only [List.all_cons, Bool.and_eq_true] at hk
    simp [List.takeWhile_cons, hk.1, ih hk.2]

/-- `hasChar` is false when no character matches. -/
theorem hasChar_false {l : List Char} {c : Char} (h : ∀ x ∈ l, x ≠ c) :
    hasChar l c = false := by
  unfold hasChar
  rw [List.any_eq_false]
  intro x hx
  simpa using h x hx

/-- Leading strip is the identity when the head is not whitespace. -/
theorem lstripL_cons_id {c : Char} {t : List Char} (h : isPySpace c = false) :
    lstripL (c :: t) = c :: t := by
  simp [lstripL, List.dropWhile_cons, h]

/-- Trailing strip is the identity when the last character is not
whitespace. -/
theorem rstripL_app_id {l : List Char} {c : Char} (h : isPySpace c = false) :
    rstripL (l ++ [c]) = l ++ [c] := by
  unfold rstripL
  rw [List.reverse_append]
  simp [List.dropWhile_cons, h]

/-- Trailing strip is the identity when the last character (if any) is not
whitespace. -/
theorem rstripL_id {l : List Char} (h : ∀ d, l.getLast? = some d → isPySpace d = false) :
    rstripL l = l := by
  cases hl : l.getLast? with
  | none =>
    have : l = [] := by
      cases l with
      | nil => rfl
      | cons a t =>
        rw [List.getLast?_eq_getLast _ (by simp)] at hl
        cases hl
    subst this
    rfl
  | some d =>
    have hd := h d hl
    have hne : l ≠ [] := by
      intro h0
      subst h0
      cases hl
    have h2 := List.dropLast_append_getLast hne
    rw [List.getLast?_eq_getLast _ hne, Option.some.injEq] at hl
    rw [hl] at h2
    rw [← h2]
    exact rstripL_app_id hd

/-- Full strip is the identity on a nonempty list with non-whitespace
endpoints. -/
theorem stripL_id {c : Char} {t : List Char} (hh : isPySpace c = false)
    (hl : ∀ d, (c :: t).getLast? = some d → isPySpace d = false) :
    stripL (c :: t) = c :: t := by
  unfold stripL
  rw [lstripL_cons_id hh]
  exact rstripL_id hl


/-- Safe value characters are none of the filter/validator
metacharacters. -/
theorem saveSafeChar_props {c : Char} (h : saveSafeChar c = true) :
    c ≠ '#' ∧ c ≠ dq ∧ c ≠ sq ∧ c ≠ '$' ∧ c ≠ '<' ∧ c ≠ '>' ∧ c ≠ '\n' ∧ c ≠ '\r' := by
  unfold saveSafeChar at h
  simp only [Bool.not_eq_true'] at h
  simp only [Bool.or_eq_false_iff] at h
  simp only [decide_eq_false_iff_not] at h
  tauto

/-- `getLast?` looks only at the nonempty right part of an append. -/
theorem getLast?_append_right {l1 l2 : List Char} (h : l2 ≠ []) :
    (l1 ++ l2).getLast? = l2.getLast? := by
  rw [List.getLast?_append]
  cases hl : l2.getLast? with
  | none =>
    exfalso
    cases l2 with
    | nil => exact h rfl
    | cons a t => rw [List.getLast?_eq_getLast _ (by simp)] at hl; cases hl
  | some d => rfl

/-- The comment scanner finds nothing on a line without hash or quote
characters. -/
theorem findComment_none {sh : Bool} :
    ∀ (l : List Char) (i : Nat) (inQ : Bool) (qc prev : Option Char),
      (∀ c ∈ l, c ≠ '#' ∧ c ≠ sq ∧ c ≠ dq) →
      findCommentIdx sh l i inQ qc prev = Option.none := by
  intro l
  induction l with
  | nil => intros; rfl
  | cons c rest ih =>
    intro i inQ qc prev hall
    have hc := hall c (by simp)
    unfold findCommentIdx
    rw [if_neg (by simp [hc.2.1, hc.2.2]), if_neg (by simp [hc.1])]
    exact ih _ _ _ _ (fun x hx => hall x (by simp [hx]))

/-- The reference scanner finds nothing without a dollar sign. -/
theorem findallVRF_no_dollar :
    ∀ (f : Nat) (l : List Char), (∀ c ∈ l, c ≠ '$') → findallVRF f l = [] := by
  intro f
  induction f with
  | zero => intros; rfl
  | succ f ih =>
    intro l h
    cases l with
    | nil => rfl
    | cons c rest =>
      unfold findallVRF
      dsimp only []
      rw [if_neg (by simp [h c (by simp)])]
      exact ih rest (fun x hx => h x (by simp [hx]))

/-- `_is_variable` is false on strings without a dollar sign. -/
theorem isVariable_no_dollar {v : List Char} (h : ∀ c ∈ v, c ≠ '$') :
    isVariable v = false := by
  unfold isVariable findallVR
  rw [findallVRF_no_dollar _ v h]
  rfl

/-- Quote removal is the identity on strings without quote characters. -/
theorem removeQuotes_id {v : List Char} (hall : ∀ c ∈ v, c ≠ dq ∧ c ≠ sq) :
    removeQuotes v = v := by
  unfold removeQuotes
  rw [if_neg]
  intro hcond
  simp only [Bool.and_eq_true, Bool.or_eq_true, decide_eq_true_eq] at hcond
  obtain ⟨-, hq⟩ := hcond
  rcases hq with ⟨h1, -⟩ | ⟨h1, -⟩
  · cases v with
    | nil => cases h1
    | cons a t =>
      simp only [List.head?_cons, Option.some.injEq] at h1
      exact absurd h1 (hall a (by simp)).1
  · cases v with
    | nil => cases h1
    | cons a t =>
      simp only [List.head?_cons, Option.some.injEq] at h1
      exact absurd h1 (hall a (by simp)).2


/-- The simple branch on a written `key=value` line with an identifier key
and a safe value returns the pair unchanged and without a cast. -/
theorem parseSimple_safe {c : Char} {rest v : List Char} (ae : Bool)
    (pcall : ∀ x ∈ (c :: rest), isPySpace x = false ∧ x ≠ '=' ∧ x ≠ '<' ∧ x ≠ '>' ∧
      x ≠ ':' ∧ x ≠ '#' ∧ x ≠ '$' ∧ x ≠ sq ∧ x ≠ dq)
    (vsafe : ∀ x ∈ v, x ≠ '#' ∧ x ≠ dq ∧ x ≠ sq ∧ x ≠ '$' ∧ x ≠ '<' ∧ x ≠ '>' ∧
      x ≠ '\n' ∧ x ≠ '\r')
    (hvne : v ≠ []) (hvstrip : stripL v = v) :
    parseSimple ((c :: rest) ++ '=' :: v) ae = .ok (c :: rest, v, Option.none) := by
  have htake : ((c :: rest) ++ '=' :: v).takeWhile (fun x => x ≠ '=') = c :: rest := by
    refine takeWhile_app_cons ?_ (by simp)
    rw [List.all_eq_true]
    intro x hx
    simp [(pcall x hx).2.1]
  have hstripk : stripL (c :: rest) = c :: rest := by
    refine stripL_id (pcall c (by simp)).1 ?_
    intro d hd
    exact (pcall d (List.mem_of_mem_getLast? hd)).1
  have hidx : idxOfChar ((c :: rest) ++ '=' :: v) '=' = (c :: rest).length := by
    unfold idxOfChar
    rw [htake]
  have hdropv : ((c :: rest) ++ '=' :: v).drop ((c :: rest).length + 1) = v := by
    have h2 : (c :: rest) ++ '=' :: v = ((c :: rest) ++ ['=']) ++ v := by simp
    have h3 : ((c :: rest) ++ ['=']).length = (c :: rest).length + 1 := by simp
    rw [h2, ← h3, List.drop_left]
  unfold parseSimple
  dsimp only []
  rw [htake, hstripk, hidx, hdropv, hvstrip]
  rw [if_neg (by simp), removeQuotes_id (fun x hx => ⟨(vsafe x hx).2.1, (vsafe x hx).2.2.1⟩)]
  have hvem : v.isEmpty = false := by
    cases v with
    | nil => exact absurd rfl hvne
    | cons a t => rfl
  rw [hvem]
  simp

/-- The line validator maps a written `key=value` line with an identifier
key and a safe value back to the pair unchanged, with no annotation. -/
theorem parseLine_safe {k v : List Char} (ae : Bool)
    (hk : validateKey k = true) (hv : saveSafeVal v = true) :
    parseLineWithCast (k ++ '=' :: v) ae = .ok (k, v, Option.none) := by
  obtain ⟨hkne, hkall⟩ := validateKey_all_idChar hk
  obtain ⟨c, rest, rfl⟩ : ∃ c rest, k = c :: rest := by
    cases k with
    | nil => exact absurd rfl hkne
    | cons c rest => exact ⟨c, rest, rfl⟩
  have pcall : ∀ x ∈ (c :: rest), isPySpace x = false ∧ x ≠ '=' ∧ x ≠ '<' ∧ x ≠ '>' ∧
      x ≠ ':' ∧ x ≠ '#' ∧ x ≠ '$' ∧ x ≠ sq ∧ x ≠ dq :=
    fun x hx => idChar_props (List.all_eq_true.mp hkall x hx)
  unfold saveSafeVal at hv
  simp only [Bool.and_eq_true] at hv
  obtain ⟨⟨⟨hvne0, hvall⟩, hvhead⟩, hvlast⟩ := hv
  have hvne : v ≠ [] := by
    cases v with
    | nil => cases hvne0
    | cons a t => simp
  have vsafe : ∀ x ∈ v, x ≠ '#' ∧ x ≠ dq ∧ x ≠ sq ∧ x ≠ '$' ∧ x ≠ '<' ∧ x ≠ '>' ∧
      x ≠ '\n' ∧ x ≠ '\r' :=
    fun x hx => saveSafeChar_props (List.all_eq_true.mp hvall x hx)
  obtain ⟨d0, vt, rfl⟩ : ∃ d0 vt, v = d0 :: vt := by
    cases v with
    | nil => exact absurd rfl hvne
    | cons d0 vt => exact ⟨d0, vt, rfl⟩
  have hvheadf : isPySpace d0 = false := by
    simp only [List.head?_cons] at hvhead
    simpa using hvhead
  have hvlastf : ∀ d, (d0 :: vt).getLast? = some d → isPySpace d = false := by
    intro d hd
    rw [hd] at hvlast
    simpa using hvlast
  have hvstrip : stripL (d0 :: vt) = d0 :: vt := stripL_id hvheadf hvlastf
  have hlineeq : (c :: rest) ++ '=' :: d0 :: vt =
      c :: (rest ++ '=' :: d0 :: vt) := by simp
  have hlstrip : lstripL ((c :: rest) ++ '=' :: d0 :: vt) =
      (c :: rest) ++ '=' :: d0 :: vt := by
    rw [hlineeq]
    exact lstripL_cons_id (pcall c (by simp)).1
  have hstrip : stripL ((c :: rest) ++ '=' :: d0 :: vt) =
      (c :: rest) ++ '=' :: d0 :: vt := by
    rw [hlineeq]
    refine stripL_id (pcall c (by simp)).1 ?_
    intro d hd
    rw [← hlineeq, getLast?_append_right (by simp)] at hd
    have : ('=' :: d0 :: vt).getLast? = (d0 :: vt).getLast? :=
      @getLast?_append_right ['='] (d0 :: vt) (by simp)
    rw [this] at hd
    exact hvlastf d hd
  have hTA : matchTypeAnn ((c :: rest) ++ '=' :: d0 :: vt) = Option.none := by
    unfold matchTypeAnn
    have ht : ((c :: rest) ++ '=' :: d0 :: vt).takeWhile
        (fun x => x ≠ '<' && x ≠ '>' && x ≠ '=') = c :: rest := by
      refine takeWhile_app_cons ?_ (by simp)
      rw [List.all_eq_true]
      intro x hx
      have px := pcall x hx
      simp [px.2.1, px.2.2.1, px.2.2.2.1]
    dsimp only []
    rw [ht, List.drop_left]
    rfl
  have hCO : matchColon ((c :: rest) ++ '=' :: d0 :: vt) = Option.none := by
    unfold matchColon
    have ht : ((c :: rest) ++ '=' :: d0 :: vt).takeWhile
        (fun x => x ≠ ':' && x ≠ '=') = c :: rest := by
      refine takeWhile_app_cons ?_ (by simp)
      rw [List.all_eq_true]
      intro x hx
      have px := pcall x hx
      simp [px.2.1, px.2.2.2.2.1]
    dsimp only []
    rw [ht, List.drop_left]
    rfl
  have hlt : hasChar ((c :: rest) ++ '=' :: d0 :: vt) '<' = false := by
    refine hasChar_false ?_
    intro x hx
    rcases List.mem_append.mp hx with hx1 | hx2
    · exact (pcall x hx1).2.2.1
    · rcases List.mem_cons.mp hx2 with hx3 | hx4
      · rw [hx3]; decide
      · exact (vsafe x hx4).2.2.2.2.1
  have heq : hasChar ((c :: rest) ++ '=' :: d0 :: vt) '=' = true := by
    unfold hasChar
    rw [List.any_eq_true]
    exact ⟨'=', by simp, by simp⟩
  have hFB : parseFallback ((c :: rest) ++ '=' :: d0 :: vt) ae =
      .ok (c :: rest, d0 :: vt, Option.none) := by
    unfold parseFallback
    rw [hlt]
    simp only [Bool.false_and]
    rw [if_neg (by simp)]
    exact parseSimple_safe ae pcall vsafe hvne hvstrip
  unfold parseLineWithCast
  dsimp only []
  rw [hlstrip, hstrip]
  rw [if_neg (by simp), if_neg (by simp [(pcall c (by simp)).2.1]), heq]
  simp only [Bool.not_true]
  rw [if_neg (by simp)]
  rw [hTA, hCO]
  exact hFB


/-- The full strip is the identity on a written `key=value` line with an
identifier key and a safe value. -/
theorem stripLine_safe {k v : List Char} (hk : validateKey k = true)
    (hv : saveSafeVal v = true) : stripL (k ++ '=' :: v) = k ++ '=' :: v := by
  obtain ⟨hkne, hkall⟩ := validateKey_all_idChar hk
  obtain ⟨c, rest, rfl⟩ : ∃ c rest, k = c :: rest := by
    cases k with
    | nil => exact absurd rfl hkne
    | cons c rest => exact ⟨c, rest, rfl⟩
  unfold saveSafeVal at hv
  simp only [Bool.and_eq_true] at hv
  obtain ⟨⟨⟨hvne0, hvall⟩, hvhead⟩, hvlast⟩ := hv
  obtain ⟨d0, vt, rfl⟩ : ∃ d0 vt, v = d0 :: vt := by
    cases v with
    | nil => cases hvne0
    | cons d0 vt => exact ⟨d0, vt, rfl⟩
  have hc := idChar_props (List.all_eq_true.mp hkall c (by simp))
  have hlineeq : (c :: rest) ++ '=' :: d0 :: vt = c :: (rest ++ '=' :: d0 :: vt) := by simp
  rw [hlineeq]
  refine stripL_id hc.1 ?_
  intro d hd
  rw [← hlineeq, getLast?_append_right (by simp)] at hd
  have h2 : ('=' :: d0 :: vt).getLast? = (d0 :: vt).getLast? :=
    @getLast?_append_right ['='] (d0 :: vt) (by simp)
  rw [h2] at hd
  rw [hd] at hvlast
  simpa using hvlast

/-- The line filter keeps written safe `key=value` lines unchanged. -/
theorem filterLines_safe :
    ∀ E : List (List Char × List Char),
      (∀ p ∈ E, validateKey p.1 = true ∧ saveSafeVal p.2 = true) →
      filterLines (E.map (fun p => p.1 ++ '=' :: p.2)) =
        E.map (fun p => p.1 ++ '=' :: p.2) := by
  intro E
  induction E with
  | nil => intro; rfl
  | cons p rest ih =>
    intro hsafe
    obtain ⟨hk, hv⟩ := hsafe p (by simp)
    obtain ⟨hkne, hkall⟩ := validateKey_all_idChar hk
    have hstrip := stripLine_safe hk hv
    have hvall : p.2.all saveSafeChar = true := by
      unfold saveSafeVal at hv
      simp only [Bool.and_eq_true] at hv
      exact hv.1.1.2
    have hnochash : ∀ x ∈ p.1 ++ '=' :: p.2, x ≠ '#' ∧ x ≠ sq ∧ x ≠ dq := by
      intro x hx
      rcases List.mem_append.mp hx with hx1 | hx2
      · have := idChar_props (List.all_eq_true.mp hkall x hx1)
        exact ⟨this.2.2.2.2.2.1, this.2.2.2.2.2.2.2.1, this.2.2.2.2.2.2.2.2⟩
      · rcases List.mem_cons.mp hx2 with hx3 | hx4
        · rw [hx3]; refine ⟨by decide, by decide, by decide⟩
        · have := saveSafeChar_props (List.all_eq_true.mp hvall x hx4)
          exact ⟨this.1, this.2.2.1, this.2.1⟩
    have hlne : p.1 ++ '=' :: p.2 ≠ [] := by
      cases hl : p.1 with
      | nil => exact absurd hl hkne
      | cons a t => simp [hl]
    simp only [List.map_cons]
    unfold filterLines
    rw [hstrip]
    rw [if_neg (by simp [List.isEmpty_iff, hlne])]
    dsimp only []
    rw [findComment_none _ _ _ _ _ hnochash]
    dsimp only []
    rw [hstrip]
    rw [if_neg (by simp [List.isEmpty_iff, hlne])]
    rw [ih (fun q hq => hsafe q (by simp [hq]))]

/-- A fresh update appends at the end. -/
theorem updateA_fresh {α : Type} :
    ∀ (l : List (List Char × α)) (k : List Char) (v : α),
      lookupA l k = Option.none → updateA l k v = l ++ [(k, v)] := by
  intro l
  induction l with
  | nil => intros; rfl
  | cons p rest ih =>
    intro k v h
    obtain ⟨k1, v1⟩ := p
    unfold lookupA at h
    unfold updateA
    by_cases hk : (k1 == k) = true
    · rw [hk] at h; simp at h
    · rw [Bool.not_eq_true] at hk
      rw [hk] at h ⊢
      simp only [Bool.false_eq_true, if_false] at h
      simp only [Bool.false_eq_true, if_false, List.cons_append, List.cons.injEq, true_and]
      exact ih k v h

/-- Looking up a fresh key still misses after appending another fresh
binding. -/
theorem lookupA_app_single {α : Type} :
    ∀ (l : List (List Char × α)) (k k1 : List Char) (v : α),
      lookupA l k1 = Option.none → k ≠ k1 →
      lookupA (l ++ [(k, v)]) k1 = Option.none := by
  intro l
  induction l with
  | nil =>
    intro k k1 v _ hne
    have hkk : (k == k1) = false := by simpa using hne
    simp [lookupA, hkk]
  | cons p rest ih =>
    intro k k1 v h hne
    obtain ⟨k2, v2⟩ := p
    unfold lookupA at h
    by_cases hk : (k2 == k1) = true
    · rw [hk] at h; simp at h
    · rw [Bool.not_eq_true] at hk
      rw [hk] at h
      simp only [Bool.false_eq_true, if_false] at h
      simp only [List.cons_append]
      unfold lookupA
      rw [hk]
      simp only [Bool.false_eq_true, if_false]
      exact ih k k1 v h hne

/-- On written safe lines the first pass accumulates exactly the pairs, in
order, with no cast annotations. -/
theorem firstPass_safe (ae : Bool) :
    ∀ (E : List (List Char × List Char)) (n : Nat) (raws : List (List Char × List Char)),
      (∀ p ∈ E, validateKey p.1 = true ∧ saveSafeVal p.2 = true) →
      (∀ p ∈ E, lookupA raws p.1 = Option.none) →
      (E.map Prod.fst).Nodup →
      firstPass ae (E.map (fun p => p.1 ++ '=' :: p.2)) n raws [] = .ok (raws ++ E, []) := by
  intro E
  induction E with
  | nil => intro n raws _ _ _; simp [firstPass]
  | cons p rest ih =>
    intro n raws hsafe hfresh hnodup
    obtain ⟨hk, hv⟩ := hsafe p (by simp)
    simp only [List.map_cons]
    unfold firstPass
    rw [show p.1 ++ '=' :: p.2 = p.1 ++ '=' :: p.2 from rfl]
    rw [parseLine_safe ae hk hv]
    dsimp only []
    rw [updateA_fresh raws p.1 p.2 (hfresh p (by simp))]
    simp only [List.map_cons, List.nodup_cons] at hnodup
    have hstep := ih (n + 1) (raws ++ [(p.1, p.2)])
      (fun q hq => hsafe q (by simp [hq]))
      (fun q hq => lookupA_app_single raws p.1 q.1 p.2 (hfresh q (by simp [hq]))
        (fun he => hnodup.1 (he ▸ List.mem_map_of_mem Prod.fst hq)))
      hnodup.2
    rw [hstep]
    simp

/-- One safe pair is processed by storing its string value and mirroring it
into the OS environment. -/
theorem processOne_safe (ae ac : Bool) (rawEnvV : List (List Char × Value))
    (st : LoadState) (key value : List Char)
    (hval : saveSafeVal value = true)
    (hfresh : lookupA st.env key = Option.none) :
    processOne ae ac rawEnvV [] st key value =
      .ok { env := st.env ++ [(key, Value.str value)], os := updateA st.os key value } := by
  unfold saveSafeVal at hval
  simp only [Bool.and_eq_true] at hval
  obtain ⟨⟨⟨hvne0, hvall⟩, -⟩, -⟩ := hval
  have hnod : ∀ x ∈ value, x ≠ '$' :=
    fun x hx => (saveSafeChar_props (List.all_eq_true.mp hvall x hx)).2.2.2.1
  have hvar := isVariable_no_dollar hnod
  have hvem : value.isEmpty = false := by
    cases value with
    | nil => cases hvne0
    | cons a t => rfl
  unfold processOne
  rw [hvar]
  simp only [Bool.false_eq_true, if_false, pure_bind]
  rw [hvem]
  simp only [Bool.not_false, Bool.true_or, if_true]
  rw [show lookupA ([] : List (List Char × List Char)) key = Option.none from rfl]
  dsimp only []
  rw [updateA_fresh st.env key (Value.str value) hfresh]
  rfl

/-- On safe pending pairs with fresh keys the second pass appends exactly
the string values, in order. -/
theorem secondPass_safe (ae ac : Bool) (rawEnvV : List (List Char × Value)) :
    ∀ (P : List (List Char × List Char)) (st : LoadState),
      (∀ p ∈ P, saveSafeVal p.2 = true) →
      (∀ p ∈ P, lookupA st.env p.1 = Option.none) →
      (P.map Prod.fst).Nodup →
      ∃ os1, secondPass ae ac rawEnvV [] P st =
        .ok { env := st.env ++ P.map (fun p => (p.1, Value.str p.2)), os := os1 } := by
  intro P
  induction P with
  | nil => intro st _ _ _; exact ⟨st.os, by simp [secondPass]⟩
  | cons p rest ih =>
    intro st hsafe hfresh hnodup
    obtain ⟨key, value⟩ := p
    simp only [List.map_cons, List.nodup_cons] at hnodup
    have hpo := processOne_safe ae ac rawEnvV st key value (hsafe (key, value) (by simp))
      (hfresh (key, value) (by simp))
    unfold secondPass
    rw [hpo]
    dsimp only []
    have hfresh2 : ∀ q ∈ rest,
        lookupA (st.env ++ [(key, Value.str value)]) q.1 = Option.none := by
      intro q hq
      refine lookupA_app_single st.env key q.1 (Value.str value)
        (hfresh q (by simp [hq])) ?_
      intro he
      exact hnodup.1 (he ▸ List.mem_map_of_mem Prod.fst hq)
    obtain ⟨os1, hrec⟩ := ih ⟨st.env ++ [(key, Value.str value)], updateA st.os key value⟩
      (fun q hq => hsafe q (by simp [hq])) hfresh2 hnodup.2
    refine ⟨os1, ?_⟩
    rw [hrec]
    simp

/-- C9 (amended): the save/reload round trip is the identity on every
environment of identifier keys and safe string values — nonempty, free of
quotes, hash, dollar, angle brackets and line breaks, with no leading or
trailing whitespace; the counterexample shows the unrestricted claim fails
for values that re-read differently (for example through comment
stripping). -/
theorem c9_round_trip_safe (E : List (List Char × List Char)) (ae ac : Bool)
    (os0 : List (List Char × List Char))
    (hkeys : (E.map Prod.fst).Nodup)
    (hsafe : ∀ p ∈ E, validateKey p.1 = true ∧ saveSafeVal p.2 = true) :
    ∃ os1, loadFromRawLines (saveLines (E.map (fun p => (p.1, Value.str p.2)))) ae ac os0 =
      .ok { env := E.map (fun p => (p.1, Value.str p.2)), os := os1 } := by
  have hsave : saveLines (E.map (fun p => (p.1, Value.str p.2))) =
      E.map (fun p => p.1 ++ '=' :: p.2) := by
    unfold saveLines
    rw [List.map_map]
    rfl
  unfold loadFromRawLines
  rw [hsave, filterLines_safe E hsafe]
  unfold loadEnv
  rw [firstPass_safe ae E 1 [] hsafe (fun p _ => rfl) hkeys]
  dsimp only []
  obtain ⟨os1, hsp⟩ := secondPass_safe ae ac
    (([] ++ E).map (fun p : List Char × List Char => (p.1, Value.str p.2)))
    ([] ++ E) ⟨[], os0⟩
    (fun p hp => (hsafe p (by simpa using hp)).2) (fun p _ => rfl)
    (by simpa using hkeys)
  rw [hsp]
  exact ⟨os1, by simp⟩

/-- C9 witness: the one-entry environment `KEY=value` survives the round
trip. -/
theorem c9_witness_round_trip :
    ∃ os1, loadFromRawLines (saveLines [("KEY".data, Value.str "value".data)]) false true [] =
      .ok { env := [("KEY".data, Value.str "value".data)], os := os1 } := by
  have h := c9_round_trip_safe [("KEY".data, "value".data)] false true []
    (by simp) (by intro p hp; simp only [List.mem_singleton] at hp; subst hp; exact ⟨by decide, by decide⟩)
  simpa using h

end Envist
